import Mathlib

/-!
Verification of the descriptor-mutation scripts of this repository
(`fix_xcode_project.py`, `add_chat_to_xcode.py`, `add_file_preview.py`).

The scripts edit an Xcode `project.pbxproj` file by regex surgery on its raw
text.  The embedding below models the text manipulated by
`fix_xcode_project.py` as a structured value `Pbx` together with a `render`
function producing the raw text; the regex anchors of the script correspond to
the optional components of `Pbx` (a component is `none` exactly when the
corresponding `re.search` fails on the rendered text), and the script's
insertions become the structural operations `addFr`, `addBf`,
`addGrpChildren`, `addSrcEntries`.  Python strings are modelled as `List Char`
so that Python's substring test (`in`) and concatenation are list operations.
-/

/-- Python strings, as lists of characters. -/
abbrev Text := List Char

/-- Convenience injection of Lean string literals into `Text`. -/
def str (s : String) : Text := s.data

/-- Concatenation of the renderings of a list of records. -/
def catMap {α : Type} (f : α → Text) : List α → Text
  | [] => []
  | a :: as => f a ++ catMap f as

/-- A `PBXFileReference` record: identifier and display name (the script uses
the file's base name both as display name and as `path`,
`fix_xcode_project.py` line 64). -/
structure FileRef where
  id : Text
  name : Text
deriving DecidableEq

/-- A `PBXBuildFile` record: identifier, the referenced `PBXFileReference`
identifier, and display name (`fix_xcode_project.py` line 68). -/
structure BuildFile where
  id : Text
  fileRef : Text
  name : Text
deriving DecidableEq

/-- A child entry of a group's `children` list or of a build phase's `files`
list: identifier plus the display name appearing in its comment. -/
structure Entry where
  id : Text
  name : Text
deriving DecidableEq

/-- Rendering of one `PBXFileReference` line, exactly as built by
`fix_xcode_project.py` line 64. -/
def renderFileRef (r : FileRef) : Text :=
  str "\t\t" ++ r.id ++ str " /* " ++ r.name
    ++ str " */ = \x7bisa = PBXFileReference; lastKnownFileType = sourcecode.swift; path = \""
    ++ r.name ++ str "\"; sourceTree = \"<group>\"; \x7d;"

/-- Rendering of one `PBXBuildFile` line, exactly as built by
`fix_xcode_project.py` line 68. -/
def renderBuildFile (b : BuildFile) : Text :=
  str "\t\t" ++ b.id ++ str " /* " ++ b.name
    ++ str " in Sources */ = \x7bisa = PBXBuildFile; fileRef = "
    ++ b.fileRef ++ str " /* " ++ b.name ++ str " */; \x7d;"

/-- Rendering of one group-children entry.  The script inserts
`"\t\t\t\t{id} /* {name} */,"` lines joined by `"\n"` and preceded by `"\n"`
(`fix_xcode_project.py` lines 98-101), so with the leading newline folded into
each entry the inserted block is `catMap renderChild new`. -/
def renderChild (e : Entry) : Text :=
  str "\n\t\t\t\t" ++ e.id ++ str " /* " ++ e.name ++ str " */,"

/-- Rendering of one sources-build-phase entry (`fix_xcode_project.py`
lines 113-116), leading newline folded in as for `renderChild`. -/
def renderSrcEntry (e : Entry) : Text :=
  str "\n\t\t\t\t" ++ e.id ++ str " /* " ++ e.name ++ str " in Sources */,"

/-- A marker-delimited record section (`PBXFileReference` or `PBXBuildFile`):
`lead` is the text between the `Begin` marker and the first record (a newline
in a well-formed descriptor) and each record occupies a line of its own. -/
structure RecSection (α : Type) where
  lead : Text
  records : List α
deriving DecidableEq

/-- Rendering of the `PBXBuildFile` section; corresponds to the region matched
by the regex of `fix_xcode_project.py` line 86. -/
def renderBFSection (s : RecSection BuildFile) : Text :=
  str "/* Begin PBXBuildFile section */" ++ s.lead
    ++ catMap (fun b => renderBuildFile b ++ str "\n") s.records
    ++ str "/* End PBXBuildFile section */"

/-- Rendering of the `PBXFileReference` section; corresponds to the region
matched by the regex of `fix_xcode_project.py` line 79. -/
def renderFRSection (s : RecSection FileRef) : Text :=
  str "/* Begin PBXFileReference section */" ++ s.lead
    ++ catMap (fun r => renderFileRef r ++ str "\n") s.records
    ++ str "/* End PBXFileReference section */"

/-- The main group record as matched by the regex of `fix_xcode_project.py`
line 93: `pre` is the matched text from the group identifier up to
`children = (` and `tail` is the text between the last child and the closing
parenthesis (whitespace such as `"\n\t\t\t"` in a well-formed descriptor).
The script appends the new entries after that whitespace; the rendering below
keeps the whitespace after the entry list, which differs from the script's
output only in the placement of this inter-record whitespace. -/
structure GroupSec where
  pre : Text
  children : List Entry
  tail : Text
deriving DecidableEq

/-- Rendering of the main group record. -/
def renderGroupSec (g : GroupSec) : Text :=
  g.pre ++ str "children = (" ++ catMap renderChild g.children ++ g.tail ++ str ");"

/-- The sources build phase as matched by the regexes of
`fix_xcode_project.py` lines 45 and 108: `pre` is the text from
`/* Sources */` up to `files = (` and `tail` is the whitespace before the
closing parenthesis.  (The Python code appends the new entries after that
whitespace; the rendering below keeps the whitespace after the entry list,
which differs from the script's output only in the placement of this
inter-record whitespace.) -/
structure SrcSec where
  pre : Text
  entries : List Entry
  tail : Text
deriving DecidableEq

/-- Rendering of the sources build phase. -/
def renderSrcSec (s : SrcSec) : Text :=
  s.pre ++ str "files = (" ++ catMap renderSrcEntry s.entries ++ s.tail ++ str ");"

/-- Rendering of an optional component (absent components contribute no
text). -/
def optText {α : Type} (f : α → Text) : Option α → Text
  | none => []
  | some a => f a

/-- The descriptor text as seen by `fix_xcode_project.py`: the components the
script's regexes can match, separated by opaque text segments.  A component is
`none` exactly when the corresponding `re.search` fails.  `mainGroupId` models
the match of `mainGroup = ([A-F0-9]{24});` (line 38). -/
structure Pbx where
  mainGroupId : Option Text
  seg0 : Text
  bf : Option (RecSection BuildFile)
  seg1 : Text
  fr : Option (RecSection FileRef)
  seg2 : Text
  grp : Option GroupSec
  seg3 : Text
  src : Option SrcSec
  seg4 : Text
deriving DecidableEq

/-- The raw descriptor text denoted by a `Pbx` value. -/
def Pbx.render (m : Pbx) : Text :=
  m.seg0 ++ optText renderBFSection m.bf ++ m.seg1 ++ optText renderFRSection m.fr
    ++ m.seg2 ++ optText (fun i => str "mainGroup = " ++ i ++ str ";") m.mainGroupId
    ++ optText renderGroupSec m.grp ++ m.seg3 ++ optText renderSrcSec m.src ++ m.seg4

/-- `generate_uuid` (`fix_xcode_project.py` lines 10-12, identical to
`generate_xcode_uuid` in the other scripts): `uuid.uuid4().hex[:24].upper()`.
`draw` models the 32 lowercase hexadecimal characters of `uuid.uuid4().hex`. -/
def generate_uuid (draw : Text) : Text :=
  (draw.take 24).map Char.toUpper

/-- Python's substring test `needle in hay`: `needle` is a prefix of some
suffix of `hay`. -/
def substr (needle : Text) : Text → Bool
  | [] => needle.isEmpty
  | c :: t => needle.isPrefixOf (c :: t) || substr needle t

/-- `is_file_in_project` (`fix_xcode_project.py` lines 27-29): Python's
`filename in pbxproj_content`, i.e. a raw substring test over the whole
descriptor text. -/
def is_file_in_project (pbxproj_content filename : Text) : Bool :=
  substr filename pbxproj_content

/-- The filenames collected into `files_to_add` by the loop of
`fix_xcode_project.py` lines 55-72: the membership test is made against the
original content for every candidate. -/
def files_to_add (content : Text) (swift_files : List (Text × Text)) : List Text :=
  (swift_files.filter (fun fp => !(is_file_in_project content fp.1))).map Prod.fst

/-- The identifiers allocated for one missing file
(`fix_xcode_project.py` lines 60-61). -/
structure Added where
  fileRefId : Text
  buildFileId : Text
  name : Text
deriving DecidableEq

/-- Sequential identifier allocation: the k-th call of `generate_uuid` during
the run returns `ids k`; each missing file consumes two identifiers
(file reference first, build file second, lines 60-61). -/
def allocate (ids : Nat → Text) : Nat → List Text → List Added
  | _, [] => []
  | k, n :: ns => ⟨ids k, ids (k + 1), n⟩ :: allocate ids (k + 2) ns

/-- Lines 79-83: if the `PBXFileReference` section is found, replace it by
`Begin marker ++ "\n" ++ old interior ++ new records ++ "\n" ++ End marker`;
if the section anchor is missing the insertion is silently skipped. -/
def addFr (new : List FileRef) (m : Pbx) : Pbx :=
  match m.fr with
  | none => m
  | some s => { m with fr := some ⟨str "\n" ++ s.lead, s.records ++ new⟩ }

/-- Lines 86-90: same for the `PBXBuildFile` section. -/
def addBf (new : List BuildFile) (m : Pbx) : Pbx :=
  match m.bf with
  | none => m
  | some s => { m with bf := some ⟨str "\n" ++ s.lead, s.records ++ new⟩ }

/-- Lines 93-105: if the main group record is found, append the new entries
after the existing children; otherwise skip silently. -/
def addGrpChildren (new : List Entry) (m : Pbx) : Pbx :=
  match m.grp with
  | none => m
  | some g => { m with grp := some ⟨g.pre, g.children ++ new, g.tail⟩ }

/-- Lines 108-118: append the new entries to the sources build phase's `files`
list. -/
def addSrcEntries (new : List Entry) (m : Pbx) : Pbx :=
  match m.src with
  | none => m
  | some s => { m with src := some ⟨s.pre, s.entries ++ new, s.tail⟩ }

/-- The four insertions of `add_files_to_project`, in the order the script
performs them (file references, build files, group children, sources
entries). -/
def applyAdds (m : Pbx) (added : List Added) : Pbx :=
  addSrcEntries (added.map (fun a => ⟨a.buildFileId, a.name⟩))
    (addGrpChildren (added.map (fun a => ⟨a.fileRefId, a.name⟩))
      (addBf (added.map (fun a => ⟨a.buildFileId, a.fileRefId, a.name⟩))
        (addFr (added.map (fun a => ⟨a.fileRefId, a.name⟩)) m)))

/-- Result of one run of `add_files_to_project`: the final in-memory
descriptor, whether the file was written back (line 121-122), the planned
additions, and the fatal message printed on an early return
(lines 40-41 and 47-48). -/
structure RunResult where
  model : Pbx
  written : Bool
  added : List Added
  failure : Option Text
deriving DecidableEq

/-- `add_files_to_project` (`fix_xcode_project.py` lines 31-124).  The two
early returns (missing `mainGroup`, missing sources build phase) abort
without writing; an empty plan returns without writing (lines 74-76); any
other run applies the four insertions and writes the result. -/
def add_files_to_project (ids : Nat → Text) (m : Pbx)
    (swift_files : List (Text × Text)) : RunResult :=
  match m.mainGroupId with
  | none => ⟨m, false, [], some (str "Could not find main group")⟩
  | some _ =>
    match m.src with
    | none => ⟨m, false, [], some (str "Could not find sources build phase")⟩
    | some _ =>
      let toAdd := files_to_add m.render swift_files
      if toAdd = [] then ⟨m, false, [], none⟩
      else ⟨applyAdds m (allocate ids 0 toAdd), true, allocate ids 0 toAdd, none⟩

/-- The `PBXFileReference` records of the descriptor ([] when the section is
absent). -/
def Pbx.frRecords (m : Pbx) : List FileRef :=
  match m.fr with
  | none => []
  | some s => s.records

/-- The `PBXBuildFile` records of the descriptor. -/
def Pbx.bfRecords (m : Pbx) : List BuildFile :=
  match m.bf with
  | none => []
  | some s => s.records

/-- The children entries of the main group. -/
def Pbx.grpChildren (m : Pbx) : List Entry :=
  match m.grp with
  | none => []
  | some g => g.children

/-- The entries of the sources build phase's `files` list. -/
def Pbx.srcEntries (m : Pbx) : List Entry :=
  match m.src with
  | none => []
  | some s => s.entries

/-- The identifiers of all `PBXFileReference` records. -/
def Pbx.frIds (m : Pbx) : List Text := m.frRecords.map FileRef.id

/-- The identifiers of all `PBXBuildFile` records. -/
def Pbx.bfIds (m : Pbx) : List Text := m.bfRecords.map BuildFile.id

/-- Referential closure of a descriptor: every `PBXBuildFile` names an
existing `PBXFileReference`, every main-group child names an existing
`PBXFileReference`, and every sources-build-phase entry names an existing
`PBXBuildFile`. -/
def closedB (m : Pbx) : Bool :=
  m.bfRecords.all (fun b => m.frIds.contains b.fileRef)
    && m.grpChildren.all (fun e => m.frIds.contains e.id)
    && m.srcEntries.all (fun e => m.bfIds.contains e.id)

/-- The membership test as the specification words it: some existing
`FileReference` record has the candidate's display name.  (This definition
follows the spec's words, for comparison with `is_file_in_project`, which is
what the code does.) -/
def registered_per_spec (m : Pbx) (n : Text) : Bool :=
  m.frRecords.any (fun r => r.name == n)

/-- Display names free of the characters that can straddle the script's
insertion points (`/`, `)`, newline, tab).  Names produced by
`find_swift_files` never contain `/` (they are single path components); the
other three characters are possible in a file name only pathologically. -/
def goodNameB (n : Text) : Bool :=
  !(n.contains '/') && !(n.contains ')') && !(n.contains '\n') && !(n.contains '\t')

/-- Whitespace shape of a section lead or tail: empty or starting with a
newline (as in every descriptor written by Xcode). -/
def wsOk (t : Text) : Bool := t.isEmpty || (t.head? == some '\n')

/-- Well-shapedness of the descriptor's inter-record whitespace. -/
def Pbx.shapeOk (m : Pbx) : Bool :=
  (match m.fr with | none => true | some s => wsOk s.lead)
    && (match m.bf with | none => true | some s => wsOk s.lead)
    && (match m.grp with | none => true | some g => wsOk g.tail)
    && (match m.src with | none => true | some s => wsOk s.tail)

/-- `add_chat_to_xcode.py` lines 44-54: the regex anchor matches the opening
of the Features group's `children = (` list and the new Chat group entry is
inserted right at that anchor, i.e. before all existing children. -/
def chatGroupIntoFeatures (chatEntry : Entry) (featuresChildren : List Entry) :
    List Entry :=
  chatEntry :: featuresChildren

/-- `add_file_preview.py` lines 44-50 and 54-60: `re.sub` replaces every
occurrence of the anchor entry by itself followed by the new entry. -/
def insertAfterEach (anchor : Entry → Bool) (new : Entry) : List Entry → List Entry
  | [] => []
  | e :: es =>
    if anchor e then e :: new :: insertAfterEach anchor new es
    else e :: insertAfterEach anchor new es

/-- The directory filter of `find_swift_files` (`fix_xcode_project.py`
line 19): keep a directory unless its name starts with `.` or equals
`Build`. -/
def keepDir (d : Text) : Bool := !((str ".").isPrefixOf d) && !(d == str "Build")

mutual
/-- A directory of the source tree walked by `os.walk`: its file names and its
named subdirectories. -/
inductive FSDir where
  | node (files : List Text) (subdirs : FSList)
/-- A list of named subdirectories. -/
inductive FSList where
  | nil
  | cons (name : Text) (dir : FSDir) (rest : FSList)
end

mutual
/-- `find_swift_files` (`fix_xcode_project.py` lines 14-25) relative to a
directory reached by the path components `pfx`: collect every file name
ending in `.swift` together with its relative path (modelled as its list of
path components, `os.path.relpath(os.path.join(dirpath, filename), root)`),
then recurse into the kept subdirectories (top-down, as `os.walk`). -/
def walkFrom : FSDir → List Text → List (Text × List Text)
  | .node files subdirs, pfx =>
    (files.filter (fun f => (str ".swift").isSuffixOf f)).map (fun f => (f, pfx ++ [f]))
      ++ walkSubs subdirs pfx
/-- Recursion of `walkFrom` over the subdirectory list, applying the in-place
pruning of `fix_xcode_project.py` line 19. -/
def walkSubs : FSList → List Text → List (Text × List Text)
  | .nil, _ => []
  | .cons name sub rest, pfx =>
    (if keepDir name then walkFrom sub (pfx ++ [name]) else []) ++ walkSubs rest pfx
end

/-- `find_swift_files root_dir`: the walk started at the root. -/
def find_swift_files (t : FSDir) : List (Text × List Text) := walkFrom t []

/-! Concrete descriptors and inputs used to instantiate the theorems below. -/

/-- A supply of identifiers (modelling the successive `generate_uuid`
calls). -/
def idsA : Nat → Text := fun _ => str "ABCDEFABCDEFABCDEFABCDEF"

/-- A well-formed descriptor with one registered file `Old.swift`, all four
insertion anchors present, and all cross-references resolving. -/
def mW : Pbx :=
  { mainGroupId := some (str "AAAAAAAAAAAAAAAAAAAAAAAA")
    seg0 := str "// !$*UTF8*$!\n"
    bf := some ⟨str "\n",
      [⟨str "B1B1B1B1B1B1B1B1B1B1B1B1", str "F1F1F1F1F1F1F1F1F1F1F1F1", str "Old.swift"⟩]⟩
    seg1 := str "\n"
    fr := some ⟨str "\n", [⟨str "F1F1F1F1F1F1F1F1F1F1F1F1", str "Old.swift"⟩]⟩
    seg2 := str "\n"
    grp := some ⟨str "AAAAAAAAAAAAAAAAAAAAAAAA /* CustomTemplate */ = \x7bisa = PBXGroup;\n\t\t\t",
      [⟨str "F1F1F1F1F1F1F1F1F1F1F1F1", str "Old.swift"⟩], str "\n\t\t\t"⟩
    seg3 := str "\n"
    src := some ⟨str "/* Sources */ = \x7b\n\t\t\tisa = PBXSourcesBuildPhase;\n\t\t\tbuildActionMask = 2147483647;\n\t\t\t",
      [⟨str "B1B1B1B1B1B1B1B1B1B1B1B1", str "Old.swift"⟩], str "\n\t\t\t"⟩
    seg4 := str "\n" }

/-- Candidates against `mW`: one already registered, one missing. -/
def filesW : List (Text × Text) :=
  [(str "Old.swift", str "Old.swift"), (str "New.swift", str "Core/New.swift")]

/-- A single missing candidate. -/
def filesNew : List (Text × Text) := [(str "New.swift", str "Core/New.swift")]

/-- A descriptor whose main-group children list has no trailing whitespace and
is followed by the text `y.swift`: the candidate name `x */,);y.swift` occurs
in the rendered text only across the group's closing parenthesis. -/
def mC1 : Pbx :=
  { mainGroupId := some (str "AAAAAAAAAAAAAAAAAAAAAAAA")
    seg0 := str "// !$*UTF8*$!\n"
    bf := some ⟨str "\n", []⟩
    seg1 := str "\n"
    fr := some ⟨str "\n", []⟩
    seg2 := str "\n"
    grp := some ⟨str "AAAAAAAAAAAAAAAAAAAAAAAA /* CustomTemplate */ = \x7bisa = PBXGroup;\n\t\t\t",
      [⟨str "CCCCCCCCCCCCCCCCCCCCCCCC", str "x"⟩], str ""⟩
    seg3 := str "y.swift\n"
    src := some ⟨str "/* Sources */ = \x7b\n\t\t\tisa = PBXSourcesBuildPhase;\n\t\t\tbuildActionMask = 2147483647;\n\t\t\t",
      [⟨str "QQQQQQQQQQQQQQQQQQQQQQQQ", str "Old.swift"⟩], str "\n\t\t\t"⟩
    seg4 := str "\n// end\n" }

/-- Candidates against `mC1`: `a.swift` is missing; `x */,);y.swift` is
present as a substring of the original text (so it is skipped), but the first
run's insertion into the group's children splits that occurrence. -/
def filesC1 : List (Text × Text) :=
  [(str "a.swift", str "a.swift"), (str "x */,);y.swift", str "x */,);y.swift")]

/-- A referentially closed descriptor whose `PBXBuildFile` section anchor is
missing (`bf = none`); every other anchor is present. -/
def mC2 : Pbx :=
  { mainGroupId := some (str "AAAAAAAAAAAAAAAAAAAAAAAA")
    seg0 := str "// !$*UTF8*$!\n"
    bf := none
    seg1 := str "\n"
    fr := some ⟨str "\n", [⟨str "F1F1F1F1F1F1F1F1F1F1F1F1", str "Old.swift"⟩]⟩
    seg2 := str "\n"
    grp := some ⟨str "AAAAAAAAAAAAAAAAAAAAAAAA /* CustomTemplate */ = \x7bisa = PBXGroup;\n\t\t\t",
      [⟨str "F1F1F1F1F1F1F1F1F1F1F1F1", str "Old.swift"⟩], str "\n\t\t\t"⟩
    seg3 := str "\n"
    src := some ⟨str "/* Sources */ = \x7b\n\t\t\tisa = PBXSourcesBuildPhase;\n\t\t\tbuildActionMask = 2147483647;\n\t\t\t", [],
      str "\n\t\t\t"⟩
    seg4 := str "\n" }

/-- A descriptor whose `PBXFileReference` section anchor is missing while the
`PBXBuildFile` section and the other anchors are present (the main group has
one child, keeping the captured children interior unique). -/
def mC3 : Pbx :=
  { mainGroupId := some (str "AAAAAAAAAAAAAAAAAAAAAAAA")
    seg0 := str "// !$*UTF8*$!\n"
    bf := some ⟨str "\n", []⟩
    seg1 := str "\n"
    fr := none
    seg2 := str "\n"
    grp := some ⟨str "AAAAAAAAAAAAAAAAAAAAAAAA /* CustomTemplate */ = \x7bisa = PBXGroup;\n\t\t\t",
      [⟨str "DDDDDDDDDDDDDDDDDDDDDDDD", str "Main.swift"⟩], str "\n\t\t\t"⟩
    seg3 := str "\n"
    src := some ⟨str "/* Sources */ = \x7b\n\t\t\tisa = PBXSourcesBuildPhase;\n\t\t\tbuildActionMask = 2147483647;\n\t\t\t", [],
      str "\n\t\t\t"⟩
    seg4 := str "\n" }

/-- A well-formed descriptor with all four insertion anchors present, empty
record sections, and one main-group child (so the captured children interior
is a unique substring of the matched group section). -/
def mC4 : Pbx :=
  { mainGroupId := some (str "AAAAAAAAAAAAAAAAAAAAAAAA")
    seg0 := str "// !$*UTF8*$!\n"
    bf := some ⟨str "\n", []⟩
    seg1 := str "\n"
    fr := some ⟨str "\n", []⟩
    seg2 := str "\n"
    grp := some ⟨str "AAAAAAAAAAAAAAAAAAAAAAAA /* CustomTemplate */ = \x7bisa = PBXGroup;\n\t\t\t",
      [⟨str "DDDDDDDDDDDDDDDDDDDDDDDD", str "Main.swift"⟩], str "\n\t\t\t"⟩
    seg3 := str "\n"
    src := some ⟨str "/* Sources */ = \x7b\n\t\t\tisa = PBXSourcesBuildPhase;\n\t\t\tbuildActionMask = 2147483647;\n\t\t\t", [],
      str "\n\t\t\t"⟩
    seg4 := str "\n" }

/-- Two candidate files with the same base name in different folders. -/
def filesC4 : List (Text × Text) :=
  [(str "F.swift", str "Models/F.swift"), (str "F.swift", str "Views/F.swift")]

/-- A descriptor with an empty `PBXFileReference` section whose free text
mentions `Foo.swift` in a comment. -/
def mC5 : Pbx :=
  { mainGroupId := none
    seg0 := str "// TODO: handle Foo.swift later\n"
    bf := none
    seg1 := str ""
    fr := some ⟨str "\n", []⟩
    seg2 := str ""
    grp := none
    seg3 := str ""
    src := none
    seg4 := str "" }

/-- A descriptor already containing the identifier
`0123456789ABCDEF01234567`. -/
def mC9 : Pbx :=
  { mainGroupId := some (str "AAAAAAAAAAAAAAAAAAAAAAAA")
    seg0 := str ""
    bf := none
    seg1 := str ""
    fr := some ⟨str "\n", [⟨str "0123456789ABCDEF01234567", str "Old.swift"⟩]⟩
    seg2 := str ""
    grp := none
    seg3 := str ""
    src := none
    seg4 := str "" }

/-- A random draw (`uuid.uuid4().hex`) whose first 24 hex digits, uppercased,
collide with the identifier present in `mC9`. -/
def drawC9 : Text := str "0123456789abcdef0123456789abcdef"

/-- A source tree with a hidden directory, a `Build` directory, a nested kept
directory, and a non-Swift file. -/
def fsW : FSDir :=
  .node [str "App.swift", str "README.md"]
    (.cons (str ".git") (.node [str "Hidden.swift"] .nil)
      (.cons (str "Build") (.node [str "Gen.swift"] .nil)
        (.cons (str "Core") (.node [str "Core.swift"] .nil) .nil)))

/-- The characters that may not start the text to the right of an insertion
point, relative to a pattern `s`: no character of `s`. -/
def SafeHead (s x : Text) : Prop := ∀ c, x.head? = some c → c ∉ s

/-- `PresIn s t t'`: in any surrounding context, replacing the segment `t` by
`t'` preserves the infix `s`. -/
def PresIn (s t t' : Text) : Prop :=
  ∀ front back : Text, s <:+: front ++ (t ++ back) → s <:+: front ++ (t' ++ back)

set_option maxRecDepth 10000

/-! Helper lemmas. -/

/-- `substr` decides the substring (infix) relation. -/
theorem substr_iff {n h : Text} : substr n h = true ↔ n <:+: h := by
  induction h with
  | nil => simp [substr, List.infix_nil, List.isEmpty_iff]
  | cons c t ih =>
    simp only [substr, Bool.or_eq_true, List.isPrefixOf_iff_prefix, ih,
      List.infix_cons_iff]

/-- `is_file_in_project` decides the substring relation. -/
theorem is_file_in_project_iff {content n : Text} :
    is_file_in_project content n = true ↔ n <:+: content := by
  simp [is_file_in_project, substr_iff]

theorem catMap_append {α : Type} (f : α → Text) (l₁ l₂ : List α) :
    catMap f (l₁ ++ l₂) = catMap f l₁ ++ catMap f l₂ := by
  induction l₁ with
  | nil => simp [catMap]
  | cons a t ih => simp [catMap, ih]

theorem infix_append_left {s a : Text} (x : Text) (h : s <:+: a) : s <:+: a ++ x := by
  obtain ⟨p, q, rfl⟩ := h
  exact ⟨p, q ++ x, by simp⟩

theorem infix_append_right {s b : Text} (x : Text) (h : s <:+: b) : s <:+: x ++ b := by
  obtain ⟨p, q, rfl⟩ := h
  exact ⟨x ++ p, q, by simp⟩

theorem catMap_infix_of_mem {α : Type} {f : α → Text} {a : α} {l : List α}
    (h : a ∈ l) : f a <:+: catMap f l := by
  induction l with
  | nil => simp at h
  | cons b t ih =>
    cases h with
    | head => exact ⟨[], catMap f t, by simp [catMap]⟩
    | tail _ h => exact infix_append_right (f b) (ih h)

/-- Decomposition of an infix of an append: it lies in the left part, in the
right part, or it straddles the seam, in which case the head of the right part
is one of its characters. -/
theorem infix_append_or {s a b : Text} (h : s <:+: a ++ b) :
    s <:+: a ∨ s <:+: b ∨ ∃ c, b.head? = some c ∧ c ∈ s := by
  obtain ⟨t, u, htu⟩ := h
  have h1 : (t ++ s) ++ u = a ++ b := by rw [htu]
  rcases List.append_eq_append_iff.mp h1 with ⟨w, hw1, _⟩ | ⟨w, hw1, hw2⟩
  · exact Or.inl ⟨t, w, by rw [hw1]⟩
  · rcases List.append_eq_append_iff.mp hw1 with ⟨v, hv1, hv2⟩ | ⟨v, _, hv2⟩
    · cases w with
      | nil => exact Or.inl ⟨t, [], by simp [hv1, hv2]⟩
      | cons c w' =>
        refine Or.inr (Or.inr ⟨c, ?_, ?_⟩)
        · rw [hw2]; rfl
        · rw [hv2]; simp
    · exact Or.inr (Or.inl ⟨v, u, by simp [hw2, hv2]⟩)

theorem safeHead_nil {s : Text} : SafeHead s [] := by
  intro c hc
  simp at hc

theorem safeHead_of_head {s x : Text} {c : Char} (hx : x.head? = some c)
    (h : c ∉ s) : SafeHead s x := by
  intro c' hc'
  rw [hx] at hc'
  cases hc'
  exact h

theorem safeHead_append {s x y : Text} (hx : SafeHead s x) (hy : SafeHead s y) :
    SafeHead s (x ++ y) := by
  intro c hc
  cases x with
  | nil => exact hy c (by simpa using hc)
  | cons a t => exact hx c (by simpa using hc)

theorem safeHead_catMap {α : Type} {s : Text} {f : α → Text} {l : List α}
    (h : ∀ r ∈ l, SafeHead s (f r)) : SafeHead s (catMap f l) := by
  induction l with
  | nil => exact safeHead_nil
  | cons a t ih =>
    exact safeHead_append (h a (by simp)) (ih fun r hr => h r (by simp [hr]))

/-- Inserting `ins` between `a` and `b` preserves an infix `s` of `a ++ b`
when no character of `s` can start `b`. -/
theorem infix_insert_mid {s a b ins : Text} (h : s <:+: a ++ b)
    (hb : SafeHead s b) : s <:+: a ++ (ins ++ b) := by
  rcases infix_append_or h with h1 | h1 | ⟨c, hc, hcs⟩
  · exact infix_append_left _ h1
  · have := infix_append_right (a ++ ins) h1
    simpa using this
  · exact absurd hcs (hb c hc)

theorem presIn_refl {s t : Text} : PresIn s t t := fun _ _ h => h

theorem presIn_of_eq {s t t' : Text} (h : t = t') : PresIn s t t' := by
  rw [h]
  exact presIn_refl

theorem presIn_trans {s a b c : Text} (h1 : PresIn s a b) (h2 : PresIn s b c) :
    PresIn s a c := fun f k h => h2 f k (h1 f k h)

theorem presIn_append {s a a' b b' : Text} (ha : PresIn s a a') (hb : PresIn s b b') :
    PresIn s (a ++ b) (a' ++ b') := by
  intro f k h
  have h1 : s <:+: (f ++ a) ++ (b ++ k) := by
    rw [List.append_assoc] at h ⊢
    simpa [List.append_assoc] using h
  have h2 := hb (f ++ a) k h1
  have h3 : s <:+: f ++ (a ++ (b' ++ k)) := by
    simpa [List.append_assoc] using h2
  have h4 := ha f (b' ++ k) h3
  simpa [List.append_assoc] using h4

/-- Inserting a block in front of a nonempty segment whose head is safe. -/
theorem presIn_insert_front {s t ins : Text} (hne : t ≠ []) (hsafe : SafeHead s t) :
    PresIn s t (ins ++ t) := by
  intro f k h
  have hsafe' : SafeHead s (t ++ k) := by
    intro c hc
    cases t with
    | nil => exact absurd rfl hne
    | cons a t' => exact hsafe c (by simpa using hc)
  have hmid : s <:+: f ++ (ins ++ (t ++ k)) := infix_insert_mid h hsafe'
  simpa [List.append_assoc] using hmid

/-- Applying a `PresIn` step in the empty context. -/
theorem presIn_apply {s t t' : Text} (h : PresIn s t t') (hs : s <:+: t) :
    s <:+: t' := by
  have := h [] [] (by simpa using hs)
  simpa using this

/-! Field bookkeeping for the four insertion operations. -/

theorem addFr_bf (new : List FileRef) (m : Pbx) : (addFr new m).bf = m.bf := by
  cases hf : m.fr <;> simp [addFr, hf]

theorem addFr_grp (new : List FileRef) (m : Pbx) : (addFr new m).grp = m.grp := by
  cases hf : m.fr <;> simp [addFr, hf]

theorem addFr_src (new : List FileRef) (m : Pbx) : (addFr new m).src = m.src := by
  cases hf : m.fr <;> simp [addFr, hf]

theorem addFr_mainGroupId (new : List FileRef) (m : Pbx) :
    (addFr new m).mainGroupId = m.mainGroupId := by
  cases hf : m.fr <;> simp [addFr, hf]

theorem addBf_fr (new : List BuildFile) (m : Pbx) : (addBf new m).fr = m.fr := by
  cases hb : m.bf <;> simp [addBf, hb]

theorem addBf_grp (new : List BuildFile) (m : Pbx) : (addBf new m).grp = m.grp := by
  cases hb : m.bf <;> simp [addBf, hb]

theorem addBf_src (new : List BuildFile) (m : Pbx) : (addBf new m).src = m.src := by
  cases hb : m.bf <;> simp [addBf, hb]

theorem addBf_mainGroupId (new : List BuildFile) (m : Pbx) :
    (addBf new m).mainGroupId = m.mainGroupId := by
  cases hb : m.bf <;> simp [addBf, hb]

theorem addGrp_fr (new : List Entry) (m : Pbx) : (addGrpChildren new m).fr = m.fr := by
  cases hg : m.grp <;> simp [addGrpChildren, hg]

theorem addGrp_bf (new : List Entry) (m : Pbx) : (addGrpChildren new m).bf = m.bf := by
  cases hg : m.grp <;> simp [addGrpChildren, hg]

theorem addGrp_src (new : List Entry) (m : Pbx) : (addGrpChildren new m).src = m.src := by
  cases hg : m.grp <;> simp [addGrpChildren, hg]

theorem addGrp_mainGroupId (new : List Entry) (m : Pbx) :
    (addGrpChildren new m).mainGroupId = m.mainGroupId := by
  cases hg : m.grp <;> simp [addGrpChildren, hg]

theorem addSrc_fr (new : List Entry) (m : Pbx) : (addSrcEntries new m).fr = m.fr := by
  cases hs : m.src <;> simp [addSrcEntries, hs]

theorem addSrc_bf (new : List Entry) (m : Pbx) : (addSrcEntries new m).bf = m.bf := by
  cases hs : m.src <;> simp [addSrcEntries, hs]

theorem addSrc_grp (new : List Entry) (m : Pbx) : (addSrcEntries new m).grp = m.grp := by
  cases hs : m.src <;> simp [addSrcEntries, hs]

theorem addSrc_mainGroupId (new : List Entry) (m : Pbx) :
    (addSrcEntries new m).mainGroupId = m.mainGroupId := by
  cases hs : m.src <;> simp [addSrcEntries, hs]

theorem applyAdds_mainGroupId (m : Pbx) (added : List Added) :
    (applyAdds m added).mainGroupId = m.mainGroupId := by
  simp [applyAdds, addSrc_mainGroupId, addGrp_mainGroupId, addBf_mainGroupId,
    addFr_mainGroupId]

theorem applyAdds_fr (m : Pbx) (added : List Added) :
    (applyAdds m added).fr = (addFr (added.map (fun a => ⟨a.fileRefId, a.name⟩)) m).fr := by
  simp [applyAdds, addSrc_fr, addGrp_fr, addBf_fr]

theorem applyAdds_frRecords (m : Pbx) (added : List Added) :
    (applyAdds m added).frRecords
      = m.frRecords
        ++ (match m.fr with
            | none => []
            | some _ => added.map (fun a => ⟨a.fileRefId, a.name⟩)) := by
  rw [Pbx.frRecords, applyAdds_fr]
  cases hf : m.fr <;> simp [addFr, hf, Pbx.frRecords]

theorem applyAdds_bfRecords (m : Pbx) (added : List Added) :
    (applyAdds m added).bfRecords
      = m.bfRecords
        ++ (match m.bf with
            | none => []
            | some _ => added.map (fun a => ⟨a.buildFileId, a.fileRefId, a.name⟩)) := by
  have h1 : (applyAdds m added).bf
      = (addBf (added.map (fun a => ⟨a.buildFileId, a.fileRefId, a.name⟩))
          (addFr (added.map (fun a => ⟨a.fileRefId, a.name⟩)) m)).bf := by
    simp [applyAdds, addSrc_bf, addGrp_bf]
  rw [Pbx.bfRecords, h1]
  cases hb : m.bf with
  | none =>
    have h2 : (addFr (added.map (fun a => ⟨a.fileRefId, a.name⟩)) m).bf = none := by
      rw [addFr_bf]; exact hb
    simp [addBf, h2, Pbx.bfRecords, hb]
  | some s =>
    have h2 : (addFr (added.map (fun a => ⟨a.fileRefId, a.name⟩)) m).bf = some s := by
      rw [addFr_bf]; exact hb
    simp [addBf, h2, Pbx.bfRecords, hb]

theorem applyAdds_grpChildren (m : Pbx) (added : List Added) :
    (applyAdds m added).grpChildren
      = m.grpChildren
        ++ (match m.grp with
            | none => []
            | some _ => added.map (fun a => ⟨a.fileRefId, a.name⟩)) := by
  have h1 : (applyAdds m added).grp
      = (addGrpChildren (added.map (fun a => ⟨a.fileRefId, a.name⟩))
          (addBf (added.map (fun a => ⟨a.buildFileId, a.fileRefId, a.name⟩))
            (addFr (added.map (fun a => ⟨a.fileRefId, a.name⟩)) m))).grp := by
    simp [applyAdds, addSrc_grp]
  rw [Pbx.grpChildren, h1]
  cases hg : m.grp with
  | none =>
    have h2 : (addBf (added.map (fun a => ⟨a.buildFileId, a.fileRefId, a.name⟩))
        (addFr (added.map (fun a => ⟨a.fileRefId, a.name⟩)) m)).grp = none := by
      rw [addBf_grp, addFr_grp]; exact hg
    simp [addGrpChildren, h2, Pbx.grpChildren, hg]
  | some g =>
    have h2 : (addBf (added.map (fun a => ⟨a.buildFileId, a.fileRefId, a.name⟩))
        (addFr (added.map (fun a => ⟨a.fileRefId, a.name⟩)) m)).grp = some g := by
      rw [addBf_grp, addFr_grp]; exact hg
    simp [addGrpChildren, h2, Pbx.grpChildren, hg]

theorem applyAdds_src_eq (m : Pbx) (added : List Added) (s : SrcSec)
    (hs : m.src = some s) :
    (applyAdds m added).src
      = some ⟨s.pre, s.entries ++ added.map (fun a => ⟨a.buildFileId, a.name⟩), s.tail⟩ := by
  have h2 : (addGrpChildren (added.map (fun a => ⟨a.fileRefId, a.name⟩))
      (addBf (added.map (fun a => ⟨a.buildFileId, a.fileRefId, a.name⟩))
        (addFr (added.map (fun a => ⟨a.fileRefId, a.name⟩)) m))).src = some s := by
    rw [addGrp_src, addBf_src, addFr_src]; exact hs
  simp [applyAdds, addSrcEntries, h2]

theorem applyAdds_srcEntries (m : Pbx) (added : List Added) :
    (applyAdds m added).srcEntries
      = m.srcEntries
        ++ (match m.src with
            | none => []
            | some _ => added.map (fun a => ⟨a.buildFileId, a.name⟩)) := by
  cases hs : m.src with
  | none =>
    have h2 : (addGrpChildren (added.map (fun a => ⟨a.fileRefId, a.name⟩))
        (addBf (added.map (fun a => ⟨a.buildFileId, a.fileRefId, a.name⟩))
          (addFr (added.map (fun a => ⟨a.fileRefId, a.name⟩)) m))).src = none := by
      rw [addGrp_src, addBf_src, addFr_src]; exact hs
    simp [Pbx.srcEntries, applyAdds, addSrcEntries, h2, hs]
  | some s =>
    rw [Pbx.srcEntries, applyAdds_src_eq m added s hs]
    simp [Pbx.srcEntries, hs]

/-! Shape bookkeeping. -/

theorem goodName_chars {n : Text} (h : goodNameB n = true) :
    '/' ∉ n ∧ ')' ∉ n ∧ '\n' ∉ n ∧ '\t' ∉ n := by
  rw [goodNameB] at h
  simp only [Bool.and_eq_true] at h
  exact ⟨by simpa using h.1.1.1, by simpa using h.1.1.2,
    by simpa using h.1.2, by simpa using h.2⟩

theorem safeHead_of_wsOk {s t : Text} (hw : wsOk t = true) (hn : '\n' ∉ s) :
    SafeHead s t := by
  rw [wsOk, Bool.or_eq_true] at hw
  rcases hw with hw | hw
  · rw [List.isEmpty_iff] at hw
    subst hw
    exact safeHead_nil
  · have ht : t.head? = some '\n' := by simpa using hw
    exact safeHead_of_head ht hn

theorem wsOk_newline_cons (t : Text) : wsOk (str "\n" ++ t) = true := by
  show wsOk ('\n' :: t) = true
  simp [wsOk]

theorem shapeOk_fr {m : Pbx} (h : m.shapeOk = true) {s0 : RecSection FileRef}
    (hf : m.fr = some s0) : wsOk s0.lead = true := by
  rw [Pbx.shapeOk] at h
  simp only [Bool.and_eq_true] at h
  have h1 := h.1.1.1
  rw [hf] at h1
  simpa using h1

theorem shapeOk_bf {m : Pbx} (h : m.shapeOk = true) {s0 : RecSection BuildFile}
    (hb : m.bf = some s0) : wsOk s0.lead = true := by
  rw [Pbx.shapeOk] at h
  simp only [Bool.and_eq_true] at h
  have h1 := h.1.1.2
  rw [hb] at h1
  simpa using h1

theorem shapeOk_grp {m : Pbx} (h : m.shapeOk = true) {g : GroupSec}
    (hg : m.grp = some g) : wsOk g.tail = true := by
  rw [Pbx.shapeOk] at h
  simp only [Bool.and_eq_true] at h
  have h1 := h.1.2
  rw [hg] at h1
  simpa using h1

theorem shapeOk_src {m : Pbx} (h : m.shapeOk = true) {s0 : SrcSec}
    (hs : m.src = some s0) : wsOk s0.tail = true := by
  rw [Pbx.shapeOk] at h
  simp only [Bool.and_eq_true] at h
  have h1 := h.2
  rw [hs] at h1
  simpa using h1

theorem shapeOk_addFr {m : Pbx} {new : List FileRef} (h : m.shapeOk = true) :
    (addFr new m).shapeOk = true := by
  cases hf : m.fr with
  | none => simpa [addFr, hf] using h
  | some s0 =>
    rw [Pbx.shapeOk] at h ⊢
    simp only [addFr, hf]
    simp only [Bool.and_eq_true] at h ⊢
    exact ⟨⟨⟨wsOk_newline_cons s0.lead, h.1.1.2⟩, h.1.2⟩, h.2⟩

theorem shapeOk_addBf {m : Pbx} {new : List BuildFile} (h : m.shapeOk = true) :
    (addBf new m).shapeOk = true := by
  cases hb : m.bf with
  | none => simpa [addBf, hb] using h
  | some s0 =>
    rw [Pbx.shapeOk] at h ⊢
    simp only [addBf, hb]
    simp only [Bool.and_eq_true] at h ⊢
    exact ⟨⟨⟨h.1.1.1, wsOk_newline_cons s0.lead⟩, h.1.2⟩, h.2⟩

theorem shapeOk_addGrp {m : Pbx} {new : List Entry} (h : m.shapeOk = true) :
    (addGrpChildren new m).shapeOk = true := by
  cases hg : m.grp with
  | none => simpa [addGrpChildren, hg] using h
  | some g =>
    rw [Pbx.shapeOk] at h ⊢
    simp only [addGrpChildren, hg]
    simp only [Bool.and_eq_true] at h ⊢
    have hg' := h.1.2
    rw [hg] at hg'
    exact ⟨⟨⟨h.1.1.1, h.1.1.2⟩, by simpa using hg'⟩, h.2⟩

theorem shapeOk_addSrc {m : Pbx} {new : List Entry} (h : m.shapeOk = true) :
    (addSrcEntries new m).shapeOk = true := by
  cases hs : m.src with
  | none => simpa [addSrcEntries, hs] using h
  | some s0 =>
    rw [Pbx.shapeOk] at h ⊢
    simp only [addSrcEntries, hs]
    simp only [Bool.and_eq_true] at h ⊢
    have hs' := h.2
    rw [hs] at hs'
    exact ⟨⟨⟨h.1.1.1, h.1.1.2⟩, h.1.2⟩, by simpa using hs'⟩

/-! Render decompositions around each component. -/

theorem render_split_bf (m : Pbx) (s0 : RecSection BuildFile) (hb : m.bf = some s0) :
    m.render = m.seg0 ++ renderBFSection s0
      ++ (m.seg1 ++ optText renderFRSection m.fr ++ m.seg2
          ++ optText (fun i => str "mainGroup = " ++ i ++ str ";") m.mainGroupId
          ++ optText renderGroupSec m.grp ++ m.seg3 ++ optText renderSrcSec m.src
          ++ m.seg4) := by
  simp [Pbx.render, optText, hb, List.append_assoc]

theorem render_split_fr (m : Pbx) (s0 : RecSection FileRef) (hf : m.fr = some s0) :
    m.render = (m.seg0 ++ optText renderBFSection m.bf ++ m.seg1)
      ++ renderFRSection s0
      ++ (m.seg2 ++ optText (fun i => str "mainGroup = " ++ i ++ str ";") m.mainGroupId
          ++ optText renderGroupSec m.grp ++ m.seg3 ++ optText renderSrcSec m.src
          ++ m.seg4) := by
  simp [Pbx.render, optText, hf, List.append_assoc]

theorem render_split_grp (m : Pbx) (g : GroupSec) (hg : m.grp = some g) :
    m.render = (m.seg0 ++ optText renderBFSection m.bf ++ m.seg1
        ++ optText renderFRSection m.fr ++ m.seg2
        ++ optText (fun i => str "mainGroup = " ++ i ++ str ";") m.mainGroupId)
      ++ renderGroupSec g
      ++ (m.seg3 ++ optText renderSrcSec m.src ++ m.seg4) := by
  simp [Pbx.render, optText, hg, List.append_assoc]

theorem render_split_src (m : Pbx) (s0 : SrcSec) (hs : m.src = some s0) :
    m.render = (m.seg0 ++ optText renderBFSection m.bf ++ m.seg1
        ++ optText renderFRSection m.fr ++ m.seg2
        ++ optText (fun i => str "mainGroup = " ++ i ++ str ";") m.mainGroupId
        ++ optText renderGroupSec m.grp ++ m.seg3)
      ++ renderSrcSec s0 ++ m.seg4 := by
  simp [Pbx.render, optText, hs, List.append_assoc]

/-! Preservation of substring occurrences across the four insertions, for
patterns avoiding the seam characters. -/

/-- Transforming a marker-delimited record section: the script prepends a
newline to4 the lead and appends the new record lines. -/
theorem presIn_recSection {α : Type} {s : Text} (mark endm : Text) (f : α → Text)
    (lead : Text) (old new : List α) (hend : endm ≠ [])
    (hsafeLead : SafeHead s lead)
    (hsafeLines : SafeHead s (catMap (fun r => f r ++ str "\n") old))
    (hsafeEnd : SafeHead s endm) :
    PresIn s (mark ++ lead ++ catMap (fun r => f r ++ str "\n") old ++ endm)
      (mark ++ (str "\n" ++ lead) ++ catMap (fun r => f r ++ str "\n") (old ++ new)
        ++ endm) := by
  have e1 : mark ++ lead ++ catMap (fun r => f r ++ str "\n") old ++ endm
      = mark ++ (lead ++ (catMap (fun r => f r ++ str "\n") old ++ endm)) := by
    simp [List.append_assoc]
  have e2 : mark ++ ((str "\n" ++ lead)
        ++ (catMap (fun r => f r ++ str "\n") old
            ++ (catMap (fun r => f r ++ str "\n") new ++ endm)))
      = mark ++ (str "\n" ++ lead) ++ catMap (fun r => f r ++ str "\n") (old ++ new)
        ++ endm := by
    simp [catMap_append, List.append_assoc]
  have hne : lead ++ (catMap (fun r => f r ++ str "\n") old ++ endm) ≠ [] :=
    List.append_ne_nil_of_right_ne_nil _ (List.append_ne_nil_of_right_ne_nil _ hend)
  have hsafe : SafeHead s (lead ++ (catMap (fun r => f r ++ str "\n") old ++ endm)) :=
    safeHead_append hsafeLead (safeHead_append hsafeLines hsafeEnd)
  have core : PresIn s (mark ++ (lead ++ (catMap (fun r => f r ++ str "\n") old ++ endm)))
      (mark ++ ((str "\n" ++ lead)
        ++ (catMap (fun r => f r ++ str "\n") old
            ++ (catMap (fun r => f r ++ str "\n") new ++ endm)))) := by
    have hstep : PresIn s (lead ++ (catMap (fun r => f r ++ str "\n") old ++ endm))
        (str "\n" ++ (lead ++ (catMap (fun r => f r ++ str "\n") old ++ endm))) :=
      presIn_insert_front hne hsafe
    refine presIn_append presIn_refl (presIn_trans hstep ?_)
    show PresIn s ((str "\n" ++ lead) ++ (catMap (fun r => f r ++ str "\n") old ++ endm))
      ((str "\n" ++ lead)
        ++ (catMap (fun r => f r ++ str "\n") old
            ++ (catMap (fun r => f r ++ str "\n") new ++ endm)))
    exact presIn_append presIn_refl
      (presIn_append presIn_refl (presIn_insert_front hend hsafeEnd))
  rw [e1, ← e2]
  exact core

/-- Transforming a parenthesised entry list (group children or build-phase
files): the script appends the new entries before the trailing whitespace and
closing parenthesis; the rendering keeps the whitespace after the entries, so
here the new block is inserted in front of `tail ++ close`. -/
theorem presIn_tailSection {s : Text} (pre mark : Text) (f : Entry → Text)
    (old new : List Entry) (tail close : Text) (hclose : close ≠ [])
    (hsafeTail : SafeHead s tail) (hsafeClose : SafeHead s close) :
    PresIn s (pre ++ mark ++ catMap f old ++ tail ++ close)
      (pre ++ mark ++ catMap f (old ++ new) ++ tail ++ close) := by
  have e1 : pre ++ mark ++ catMap f old ++ tail ++ close
      = pre ++ (mark ++ (catMap f old ++ (tail ++ close))) := by
    simp [List.append_assoc]
  have e2 : pre ++ (mark ++ (catMap f old ++ (catMap f new ++ (tail ++ close))))
      = pre ++ mark ++ catMap f (old ++ new) ++ tail ++ close := by
    simp [catMap_append, List.append_assoc]
  have core : PresIn s (pre ++ (mark ++ (catMap f old ++ (tail ++ close))))
      (pre ++ (mark ++ (catMap f old ++ (catMap f new ++ (tail ++ close))))) := by
    refine presIn_append presIn_refl
      (presIn_append presIn_refl (presIn_append presIn_refl ?_))
    exact presIn_insert_front (List.append_ne_nil_of_right_ne_nil _ hclose)
      (safeHead_append hsafeTail hsafeClose)
  rw [e1, ← e2]
  exact core

theorem presIn_addFr {s : Text} {new : List FileRef} {m : Pbx}
    (h1 : '/' ∉ s) (h3 : '\n' ∉ s) (h4 : '\t' ∉ s) (hshape : m.shapeOk = true) :
    PresIn s m.render (addFr new m).render := by
  cases hf : m.fr with
  | none =>
    rw [show addFr new m = m by simp [addFr, hf]]
    exact presIn_refl
  | some s0 =>
    have hrender' : (addFr new m).render
        = (m.seg0 ++ optText renderBFSection m.bf ++ m.seg1)
          ++ renderFRSection ⟨str "\n" ++ s0.lead, s0.records ++ new⟩
          ++ (m.seg2 ++ optText (fun i => str "mainGroup = " ++ i ++ str ";") m.mainGroupId
              ++ optText renderGroupSec m.grp ++ m.seg3 ++ optText renderSrcSec m.src
              ++ m.seg4) := by
      rw [show addFr new m = { m with fr := some ⟨str "\n" ++ s0.lead, s0.records ++ new⟩ }
        by simp [addFr, hf]]
      simp [Pbx.render, optText, List.append_assoc]
    rw [render_split_fr m s0 hf, hrender']
    refine presIn_append (presIn_append presIn_refl ?_) presIn_refl
    exact presIn_recSection (str "/* Begin PBXFileReference section */")
      (str "/* End PBXFileReference section */") renderFileRef s0.lead s0.records new
      (by decide) (safeHead_of_wsOk (shapeOk_fr hshape hf) h3)
      (safeHead_catMap fun r _ => safeHead_of_head rfl h4)
      (safeHead_of_head rfl h1)

theorem presIn_addBf {s : Text} {new : List BuildFile} {m : Pbx}
    (h1 : '/' ∉ s) (h3 : '\n' ∉ s) (h4 : '\t' ∉ s) (hshape : m.shapeOk = true) :
    PresIn s m.render (addBf new m).render := by
  cases hb : m.bf with
  | none =>
    rw [show addBf new m = m by simp [addBf, hb]]
    exact presIn_refl
  | some s0 =>
    have hrender' : (addBf new m).render
        = m.seg0 ++ renderBFSection ⟨str "\n" ++ s0.lead, s0.records ++ new⟩
          ++ (m.seg1 ++ optText renderFRSection m.fr ++ m.seg2
              ++ optText (fun i => str "mainGroup = " ++ i ++ str ";") m.mainGroupId
              ++ optText renderGroupSec m.grp ++ m.seg3 ++ optText renderSrcSec m.src
              ++ m.seg4) := by
      rw [show addBf new m = { m with bf := some ⟨str "\n" ++ s0.lead, s0.records ++ new⟩ }
        by simp [addBf, hb]]
      simp [Pbx.render, optText, List.append_assoc]
    rw [render_split_bf m s0 hb, hrender']
    refine presIn_append (presIn_append presIn_refl ?_) presIn_refl
    exact presIn_recSection (str "/* Begin PBXBuildFile section */")
      (str "/* End PBXBuildFile section */") renderBuildFile s0.lead s0.records new
      (by decide) (safeHead_of_wsOk (shapeOk_bf hshape hb) h3)
      (safeHead_catMap fun r _ => safeHead_of_head rfl h4)
      (safeHead_of_head rfl h1)

theorem presIn_addGrp {s : Text} {new : List Entry} {m : Pbx}
    (h2 : ')' ∉ s) (h3 : '\n' ∉ s) (hshape : m.shapeOk = true) :
    PresIn s m.render (addGrpChildren new m).render := by
  cases hg : m.grp with
  | none =>
    rw [show addGrpChildren new m = m by simp [addGrpChildren, hg]]
    exact presIn_refl
  | some g =>
    have hrender' : (addGrpChildren new m).render
        = (m.seg0 ++ optText renderBFSection m.bf ++ m.seg1
            ++ optText renderFRSection m.fr ++ m.seg2
            ++ optText (fun i => str "mainGroup = " ++ i ++ str ";") m.mainGroupId)
          ++ renderGroupSec ⟨g.pre, g.children ++ new, g.tail⟩
          ++ (m.seg3 ++ optText renderSrcSec m.src ++ m.seg4) := by
      rw [show addGrpChildren new m = { m with grp := some ⟨g.pre, g.children ++ new, g.tail⟩ }
        by simp [addGrpChildren, hg]]
      simp [Pbx.render, optText, List.append_assoc]
    rw [render_split_grp m g hg, hrender']
    refine presIn_append (presIn_append presIn_refl ?_) presIn_refl
    exact presIn_tailSection g.pre (str "children = (") renderChild g.children new
      g.tail (str ");") (by decide) (safeHead_of_wsOk (shapeOk_grp hshape hg) h3)
      (safeHead_of_head rfl h2)

theorem presIn_addSrc {s : Text} {new : List Entry} {m : Pbx}
    (h2 : ')' ∉ s) (h3 : '\n' ∉ s) (hshape : m.shapeOk = true) :
    PresIn s m.render (addSrcEntries new m).render := by
  cases hs : m.src with
  | none =>
    rw [show addSrcEntries new m = m by simp [addSrcEntries, hs]]
    exact presIn_refl
  | some s0 =>
    have hrender' : (addSrcEntries new m).render
        = (m.seg0 ++ optText renderBFSection m.bf ++ m.seg1
            ++ optText renderFRSection m.fr ++ m.seg2
            ++ optText (fun i => str "mainGroup = " ++ i ++ str ";") m.mainGroupId
            ++ optText renderGroupSec m.grp ++ m.seg3)
          ++ renderSrcSec ⟨s0.pre, s0.entries ++ new, s0.tail⟩ ++ m.seg4 := by
      rw [show addSrcEntries new m = { m with src := some ⟨s0.pre, s0.entries ++ new, s0.tail⟩ }
        by simp [addSrcEntries, hs]]
      simp [Pbx.render, optText, List.append_assoc]
    rw [render_split_src m s0 hs, hrender']
    refine presIn_append (presIn_append presIn_refl ?_) presIn_refl
    exact presIn_tailSection s0.pre (str "files = (") renderSrcEntry s0.entries new
      s0.tail (str ");") (by decide) (safeHead_of_wsOk (shapeOk_src hshape hs) h3)
      (safeHead_of_head rfl h2)

/-- Master preservation: for a pattern avoiding the seam characters, every
substring occurrence in the original descriptor survives the four
insertions. -/
theorem presIn_applyAdds {s : Text} (m : Pbx) (added : List Added)
    (hgood : goodNameB s = true) (hshape : m.shapeOk = true) :
    PresIn s m.render (applyAdds m added).render := by
  obtain ⟨h1, h2, h3, h4⟩ := goodName_chars hgood
  have sh1 : (addFr (added.map (fun a => ⟨a.fileRefId, a.name⟩)) m).shapeOk = true :=
    shapeOk_addFr hshape
  have sh2 : (addBf (added.map (fun a => ⟨a.buildFileId, a.fileRefId, a.name⟩))
      (addFr (added.map (fun a => ⟨a.fileRefId, a.name⟩)) m)).shapeOk = true :=
    shapeOk_addBf sh1
  have sh3 : (addGrpChildren (added.map (fun a => ⟨a.fileRefId, a.name⟩))
      (addBf (added.map (fun a => ⟨a.buildFileId, a.fileRefId, a.name⟩))
        (addFr (added.map (fun a => ⟨a.fileRefId, a.name⟩)) m))).shapeOk = true :=
    shapeOk_addGrp sh2
  exact presIn_trans (presIn_addFr h1 h3 h4 hshape)
    (presIn_trans (presIn_addBf h1 h3 h4 sh1)
      (presIn_trans (presIn_addGrp h2 h3 sh2) (presIn_addSrc h2 h3 sh3)))

/-! Record names occur in the rendered descriptor. -/

theorem frName_infix_render {m : Pbx} {r : FileRef} (h : r ∈ m.frRecords) :
    r.name <:+: m.render := by
  cases hf : m.fr with
  | none =>
    simp [Pbx.frRecords, hf] at h
  | some s0 =>
    simp only [Pbx.frRecords, hf] at h
    have h1 : r.name <:+: renderFileRef r ++ str "\n" :=
      ⟨str "\t\t" ++ r.id ++ str " /* ",
       str " */ = \x7bisa = PBXFileReference; lastKnownFileType = sourcecode.swift; path = \""
         ++ r.name ++ str "\"; sourceTree = \"<group>\"; \x7d;" ++ str "\n",
       by simp [renderFileRef, List.append_assoc]⟩
    have h2 : renderFileRef r ++ str "\n"
        <:+: catMap (fun x => renderFileRef x ++ str "\n") s0.records :=
      catMap_infix_of_mem (f := fun x => renderFileRef x ++ str "\n") h
    have h3 : catMap (fun x => renderFileRef x ++ str "\n") s0.records
        <:+: renderFRSection s0 :=
      ⟨str "/* Begin PBXFileReference section */" ++ s0.lead,
       str "/* End PBXFileReference section */",
       by simp [renderFRSection, List.append_assoc]⟩
    have h4 : renderFRSection s0 <:+: m.render :=
      ⟨m.seg0 ++ optText renderBFSection m.bf ++ m.seg1,
       m.seg2 ++ optText (fun i => str "mainGroup = " ++ i ++ str ";") m.mainGroupId
         ++ optText renderGroupSec m.grp ++ m.seg3 ++ optText renderSrcSec m.src ++ m.seg4,
       by simp [render_split_fr m s0 hf, List.append_assoc]⟩
    exact h1.trans (h2.trans (h3.trans h4))

theorem srcName_infix_render {m : Pbx} {e : Entry} (h : e ∈ m.srcEntries) :
    e.name <:+: m.render := by
  cases hs : m.src with
  | none =>
    simp [Pbx.srcEntries, hs] at h
  | some s0 =>
    simp only [Pbx.srcEntries, hs] at h
    have h1 : e.name <:+: renderSrcEntry e :=
      ⟨str "\n\t\t\t\t" ++ e.id ++ str " /* ", str " in Sources */,",
       by simp [renderSrcEntry, List.append_assoc]⟩
    have h2 : renderSrcEntry e <:+: catMap renderSrcEntry s0.entries :=
      catMap_infix_of_mem (f := renderSrcEntry) h
    have h3 : catMap renderSrcEntry s0.entries <:+: renderSrcSec s0 :=
      ⟨s0.pre ++ str "files = (", s0.tail ++ str ");",
       by simp [renderSrcSec, List.append_assoc]⟩
    have h4 : renderSrcSec s0 <:+: m.render :=
      ⟨m.seg0 ++ optText renderBFSection m.bf ++ m.seg1
         ++ optText renderFRSection m.fr ++ m.seg2
         ++ optText (fun i => str "mainGroup = " ++ i ++ str ";") m.mainGroupId
         ++ optText renderGroupSec m.grp ++ m.seg3,
       m.seg4,
       by simp [render_split_src m s0 hs, List.append_assoc]⟩
    exact h1.trans (h2.trans (h3.trans h4))

/-! Characterisation of one run. -/

theorem allocate_names (ids : Nat → Text) :
    ∀ (k : Nat) (ns : List Text), (allocate ids k ns).map Added.name = ns := by
  intro k ns
  induction ns generalizing k with
  | nil => simp [allocate]
  | cons n t ih => simp [allocate, ih]

theorem allocate_ne_nil (ids : Nat → Text) (k : Nat) {ns : List Text} (h : ns ≠ []) :
    allocate ids k ns ≠ [] := by
  cases ns with
  | nil => exact absurd rfl h
  | cons n t => simp [allocate]

theorem run_mainGroup_none {ids : Nat → Text} {m : Pbx} {files : List (Text × Text)}
    (h : m.mainGroupId = none) :
    add_files_to_project ids m files
      = ⟨m, false, [], some (str "Could not find main group")⟩ := by
  simp [add_files_to_project, h]

theorem run_src_none {ids : Nat → Text} {m : Pbx} {files : List (Text × Text)} {g : Text}
    (hmg : m.mainGroupId = some g) (hs : m.src = none) :
    add_files_to_project ids m files
      = ⟨m, false, [], some (str "Could not find sources build phase")⟩ := by
  simp [add_files_to_project, hmg, hs]

theorem run_empty {ids : Nat → Text} {m : Pbx} {files : List (Text × Text)} {g : Text}
    {s0 : SrcSec} (hmg : m.mainGroupId = some g) (hs : m.src = some s0)
    (hempty : files_to_add m.render files = []) :
    add_files_to_project ids m files = ⟨m, false, [], none⟩ := by
  simp [add_files_to_project, hmg, hs, hempty]

theorem run_written {ids : Nat → Text} {m : Pbx} {files : List (Text × Text)} {g : Text}
    {s0 : SrcSec} (hmg : m.mainGroupId = some g) (hs : m.src = some s0)
    (hne : files_to_add m.render files ≠ []) :
    add_files_to_project ids m files
      = ⟨applyAdds m (allocate ids 0 (files_to_add m.render files)), true,
         allocate ids 0 (files_to_add m.render files), none⟩ := by
  simp [add_files_to_project, hmg, hs, hne]

/-! Shape of the discovery walk's results. -/

mutual
theorem walkFrom_shape : ∀ (t : FSDir) (pfx : List Text) (p : Text × List Text),
    p ∈ walkFrom t pfx →
    (str ".swift").isSuffixOf p.1 = true
      ∧ ∃ ds, p.2 = pfx ++ ds ++ [p.1] ∧ ∀ d ∈ ds, keepDir d = true
  | .node files subdirs, pfx, p, hp => by
    rw [walkFrom] at hp
    rcases List.mem_append.mp hp with h | h
    · obtain ⟨f, hf, rfl⟩ := List.mem_map.mp h
      obtain ⟨_, hsw⟩ := List.mem_filter.mp hf
      exact ⟨hsw, [], by simp, by simp⟩
    · exact walkSubs_shape subdirs pfx p h
theorem walkSubs_shape : ∀ (l : FSList) (pfx : List Text) (p : Text × List Text),
    p ∈ walkSubs l pfx →
    (str ".swift").isSuffixOf p.1 = true
      ∧ ∃ ds, p.2 = pfx ++ ds ++ [p.1] ∧ ∀ d ∈ ds, keepDir d = true
  | .nil, _, p, hp => by simp [walkSubs] at hp
  | .cons name sub rest, pfx, p, hp => by
    rw [walkSubs] at hp
    rcases List.mem_append.mp hp with h | h
    · by_cases hk : keepDir name
      · rw [if_pos hk] at h
        obtain ⟨hsw, ds, hds, hkeep⟩ := walkFrom_shape sub (pfx ++ [name]) p h
        refine ⟨hsw, name :: ds, ?_, ?_⟩
        · rw [hds]
          simp [List.append_assoc]
        · intro d hd
          rcases List.mem_cons.mp hd with rfl | hd
          · exact hk
          · exact hkeep d hd
      · rw [if_neg hk] at h
        simp at h
    · exact walkSubs_shape rest pfx p h
end


/-! Claim theorems. -/

/-- C10: every `(display_name, relative_path)` pair returned by the
source-discovery walk (`find_swift_files`, `fix_xcode_project.py`
lines 14-25) has a display name ending in `.swift` that equals the base name
of the relative path, and no component of the relative path's directory part
starts with `.` or equals `Build`. -/
theorem c10_discovery (t : FSDir) (p : Text × List Text)
    (hp : p ∈ find_swift_files t) :
    (str ".swift").isSuffixOf p.1 = true ∧ p.2.getLast? = some p.1
      ∧ ∀ d ∈ p.2.dropLast, ¬(str ".").isPrefixOf d = true ∧ d ≠ str "Build" := by
  rw [find_swift_files] at hp
  obtain ⟨hsw, ds, hds, hkeep⟩ := walkFrom_shape t [] p hp
  have h2 : p.2 = ds ++ [p.1] := by simpa using hds
  refine ⟨hsw, ?_, ?_⟩
  · rw [h2]
    exact List.getLast?_concat _
  · rw [h2, List.dropLast_concat]
    intro d hd
    have hk := hkeep d hd
    rw [keepDir, Bool.and_eq_true, Bool.not_eq_true', Bool.not_eq_true'] at hk
    exact ⟨by simp [hk.1], by simpa using hk.2⟩

/-- Witness for C10 at a concrete tree: `App.swift` at the root is returned
and satisfies the guarantee. -/
theorem c10_witness :
    (str ".swift").isSuffixOf (str "App.swift") = true
      ∧ [str "App.swift"].getLast? = some (str "App.swift")
      ∧ ∀ d ∈ ([str "App.swift"] : List Text).dropLast,
          ¬(str ".").isPrefixOf d = true ∧ d ≠ str "Build" :=
  c10_discovery fsW (str "App.swift", [str "App.swift"]) (by decide)

/-- C9 (amended): `generate_uuid` returns the first 24 digits of the random
draw, uppercased: a 24-character uppercase-hexadecimal token.  No check
against the identifiers already present in the descriptor is performed (see
`c9_counterexample`). -/
theorem c9_identifier_format (draw : Text) (hlen : draw.length = 32)
    (hhex : ∀ c ∈ draw, c ∈ str "0123456789abcdef") :
    (generate_uuid draw).length = 24
      ∧ ∀ c ∈ generate_uuid draw, c ∈ str "0123456789ABCDEF" := by
  constructor
  · simp [generate_uuid, hlen]
  · intro c hc
    rw [generate_uuid] at hc
    obtain ⟨c0, hc0, rfl⟩ := List.mem_map.mp hc
    have hc0' : c0 ∈ draw := List.mem_of_mem_take hc0
    have hupper : ∀ c ∈ str "0123456789abcdef", Char.toUpper c ∈ str "0123456789ABCDEF" := by
      decide
    exact hupper c0 (hhex c0 hc0')

/-- Witness for C9 at a concrete draw. -/
theorem c9_witness :
    (generate_uuid drawC9).length = 24
      ∧ ∀ c ∈ generate_uuid drawC9, c ∈ str "0123456789ABCDEF" :=
  c9_identifier_format drawC9 (by decide) (by decide)

/-- Counterexample for C9 as stated: the generator performs no check against
the current descriptor model, so a draw whose prefix matches an existing
identifier makes `generate_uuid` return an identifier that is already present
(here in `mC9`'s file-reference section). -/
theorem c9_counterexample :
    generate_uuid drawC9 = str "0123456789ABCDEF01234567"
      ∧ generate_uuid drawC9 ∈ mC9.frIds := by
  constructor
  · decide
  · decide

/-! Sublist lemmas: the four insertions only ever add bytes. -/

theorem render_sublist_addFr (new : List FileRef) (m : Pbx) :
    List.Sublist m.render (addFr new m).render := by
  cases hf : m.fr with
  | none =>
    rw [show addFr new m = m by simp [addFr, hf]]
  | some s0 =>
    have hrender' : (addFr new m).render
        = (m.seg0 ++ optText renderBFSection m.bf ++ m.seg1)
          ++ renderFRSection ⟨str "\n" ++ s0.lead, s0.records ++ new⟩
          ++ (m.seg2 ++ optText (fun i => str "mainGroup = " ++ i ++ str ";") m.mainGroupId
              ++ optText renderGroupSec m.grp ++ m.seg3 ++ optText renderSrcSec m.src
              ++ m.seg4) := by
      rw [show addFr new m = { m with fr := some ⟨str "\n" ++ s0.lead, s0.records ++ new⟩ }
        by simp [addFr, hf]]
      simp [Pbx.render, optText, List.append_assoc]
    rw [render_split_fr m s0 hf, hrender']
    refine List.Sublist.append (List.Sublist.append (List.Sublist.refl _) ?_)
      (List.Sublist.refl _)
    rw [renderFRSection, renderFRSection, catMap_append]
    refine List.Sublist.append (List.Sublist.append (List.Sublist.append
      (List.Sublist.refl _) ?_) ?_) (List.Sublist.refl _)
    · exact List.sublist_cons_self '\n' s0.lead
    · exact List.sublist_append_left _ _

theorem render_sublist_addBf (new : List BuildFile) (m : Pbx) :
    List.Sublist m.render (addBf new m).render := by
  cases hb : m.bf with
  | none =>
    rw [show addBf new m = m by simp [addBf, hb]]
  | some s0 =>
    have hrender' : (addBf new m).render
        = m.seg0 ++ renderBFSection ⟨str "\n" ++ s0.lead, s0.records ++ new⟩
          ++ (m.seg1 ++ optText renderFRSection m.fr ++ m.seg2
              ++ optText (fun i => str "mainGroup = " ++ i ++ str ";") m.mainGroupId
              ++ optText renderGroupSec m.grp ++ m.seg3 ++ optText renderSrcSec m.src
              ++ m.seg4) := by
      rw [show addBf new m = { m with bf := some ⟨str "\n" ++ s0.lead, s0.records ++ new⟩ }
        by simp [addBf, hb]]
      simp [Pbx.render, optText, List.append_assoc]
    rw [render_split_bf m s0 hb, hrender']
    refine List.Sublist.append (List.Sublist.append (List.Sublist.refl _) ?_)
      (List.Sublist.refl _)
    rw [renderBFSection, renderBFSection, catMap_append]
    refine List.Sublist.append (List.Sublist.append (List.Sublist.append
      (List.Sublist.refl _) ?_) ?_) (List.Sublist.refl _)
    · exact List.sublist_cons_self '\n' s0.lead
    · exact List.sublist_append_left _ _

theorem render_sublist_addGrp (new : List Entry) (m : Pbx) :
    List.Sublist m.render (addGrpChildren new m).render := by
  cases hg : m.grp with
  | none =>
    rw [show addGrpChildren new m = m by simp [addGrpChildren, hg]]
  | some g =>
    have hrender' : (addGrpChildren new m).render
        = (m.seg0 ++ optText renderBFSection m.bf ++ m.seg1
            ++ optText renderFRSection m.fr ++ m.seg2
            ++ optText (fun i => str "mainGroup = " ++ i ++ str ";") m.mainGroupId)
          ++ renderGroupSec ⟨g.pre, g.children ++ new, g.tail⟩
          ++ (m.seg3 ++ optText renderSrcSec m.src ++ m.seg4) := by
      rw [show addGrpChildren new m = { m with grp := some ⟨g.pre, g.children ++ new, g.tail⟩ }
        by simp [addGrpChildren, hg]]
      simp [Pbx.render, optText, List.append_assoc]
    rw [render_split_grp m g hg, hrender']
    refine List.Sublist.append (List.Sublist.append (List.Sublist.refl _) ?_)
      (List.Sublist.refl _)
    rw [renderGroupSec, renderGroupSec, catMap_append]
    refine List.Sublist.append (List.Sublist.append (List.Sublist.append
      (List.Sublist.refl _) ?_) (List.Sublist.refl _)) (List.Sublist.refl _)
    exact List.sublist_append_left _ _

theorem render_sublist_addSrc (new : List Entry) (m : Pbx) :
    List.Sublist m.render (addSrcEntries new m).render := by
  cases hs : m.src with
  | none =>
    rw [show addSrcEntries new m = m by simp [addSrcEntries, hs]]
  | some s0 =>
    have hrender' : (addSrcEntries new m).render
        = (m.seg0 ++ optText renderBFSection m.bf ++ m.seg1
            ++ optText renderFRSection m.fr ++ m.seg2
            ++ optText (fun i => str "mainGroup = " ++ i ++ str ";") m.mainGroupId
            ++ optText renderGroupSec m.grp ++ m.seg3)
          ++ renderSrcSec ⟨s0.pre, s0.entries ++ new, s0.tail⟩ ++ m.seg4 := by
      rw [show addSrcEntries new m = { m with src := some ⟨s0.pre, s0.entries ++ new, s0.tail⟩ }
        by simp [addSrcEntries, hs]]
      simp [Pbx.render, optText, List.append_assoc]
    rw [render_split_src m s0 hs, hrender']
    refine List.Sublist.append (List.Sublist.append (List.Sublist.refl _) ?_)
      (List.Sublist.refl _)
    rw [renderSrcSec, renderSrcSec, catMap_append]
    refine List.Sublist.append (List.Sublist.append (List.Sublist.append
      (List.Sublist.refl _) ?_) (List.Sublist.refl _)) (List.Sublist.refl _)
    exact List.sublist_append_left _ _

theorem render_sublist_applyAdds (m : Pbx) (added : List Added) :
    List.Sublist m.render (applyAdds m added).render :=
  List.Sublist.trans (render_sublist_addFr _ m)
    (List.Sublist.trans (render_sublist_addBf _ _)
      (List.Sublist.trans (render_sublist_addGrp _ _) (render_sublist_addSrc _ _)))

theorem sublist_insertAfterEach (p : Entry → Bool) (x : Entry) (l : List Entry) :
    List.Sublist l (insertAfterEach p x l) := by
  induction l with
  | nil => simp [insertAfterEach]
  | cons e es ih =>
    rw [insertAfterEach]
    by_cases hp : p e
    · rw [if_pos hp]
      exact List.Sublist.cons₂ e (ih.trans (List.sublist_cons_self x _))
    · rw [if_neg hp]
      exact List.Sublist.cons₂ e ih

/-- C8: when a required section marker — the main-group declaration or the
sources build phase, the two markers `add_files_to_project` requires
(`fix_xcode_project.py` lines 38-48) — cannot be located, the run reports the
failure and returns before any mutation: the in-memory descriptor is
unchanged and nothing is written back, so the on-disk file is untouched. -/
theorem c8_malformed_descriptor (ids : Nat → Text) (m : Pbx)
    (files : List (Text × Text)) (h : m.mainGroupId = none ∨ m.src = none) :
    (add_files_to_project ids m files).failure.isSome = true
      ∧ (add_files_to_project ids m files).model = m
      ∧ (add_files_to_project ids m files).written = false := by
  rcases h with h | h
  · rw [run_mainGroup_none h]
    exact ⟨rfl, rfl, rfl⟩
  · cases hmg : m.mainGroupId with
    | none =>
      rw [run_mainGroup_none hmg]
      exact ⟨rfl, rfl, rfl⟩
    | some g =>
      rw [run_src_none hmg h]
      exact ⟨rfl, rfl, rfl⟩

/-- Witness for C8: a descriptor without a main-group declaration is left
untouched. -/
theorem c8_witness :
    (add_files_to_project idsA mC5 filesNew).failure.isSome = true
      ∧ (add_files_to_project idsA mC5 filesNew).model = mC5
      ∧ (add_files_to_project idsA mC5 filesNew).written = false :=
  c8_malformed_descriptor idsA mC5 filesNew (Or.inl (by decide))

/-- C7: when the plan is empty the run returns before the write
(`fix_xcode_project.py` lines 74-76), so the descriptor on disk stays
byte-for-byte identical; and in every run the output text is the input text
with new byte runs inserted — no original byte is removed or reordered, so
all untouched records keep their bytes (stated as: the input text is a
sublist of the output text). -/
theorem c7_frame_condition (ids : Nat → Text) (m : Pbx) (files : List (Text × Text)) :
    ((add_files_to_project ids m files).added = []
        → (add_files_to_project ids m files).model = m
          ∧ (add_files_to_project ids m files).written = false)
      ∧ List.Sublist m.render (add_files_to_project ids m files).model.render := by
  cases hmg : m.mainGroupId with
  | none =>
    rw [run_mainGroup_none hmg]
    exact ⟨fun _ => ⟨rfl, rfl⟩, List.Sublist.refl _⟩
  | some g =>
    cases hs : m.src with
    | none =>
      rw [run_src_none hmg hs]
      exact ⟨fun _ => ⟨rfl, rfl⟩, List.Sublist.refl _⟩
    | some s0 =>
      by_cases hta : files_to_add m.render files = []
      · rw [run_empty hmg hs hta]
        exact ⟨fun _ => ⟨rfl, rfl⟩, List.Sublist.refl _⟩
      · rw [run_written hmg hs hta]
        exact ⟨fun hadd => absurd hadd (allocate_ne_nil ids 0 hta),
          render_sublist_applyAdds m _⟩

/-- Witness for C7: a run whose candidates are all registered already leaves
the descriptor unchanged, and its text survives as a sublist. -/
theorem c7_witness :
    (add_files_to_project idsA mW [(str "Old.swift", str "Old.swift")]).model = mW
      ∧ (add_files_to_project idsA mW [(str "Old.swift", str "Old.swift")]).written = false
      ∧ List.Sublist mW.render
          (add_files_to_project idsA mW [(str "Old.swift", str "Old.swift")]).model.render :=
  ⟨((c7_frame_condition idsA mW [(str "Old.swift", str "Old.swift")]).1 (by decide)).1,
   ((c7_frame_condition idsA mW [(str "Old.swift", str "Old.swift")]).1 (by decide)).2,
   (c7_frame_condition idsA mW [(str "Old.swift", str "Old.swift")]).2⟩

/-- C5 (amended): the membership test `is_file_in_project` is a substring
check over the whole descriptor text, not display-name equality against the
FileReference records.  A candidate whose display name equals an existing
FileReference's display name is always classified as registered (this
theorem); the converse fails: a name occurring anywhere in the text — e.g.
inside an unrelated comment — is also classified as registered even when no
FileReference record carries it (`c5_counterexample`). -/
theorem c5_membership_test (m : Pbx) (n : Text)
    (h : registered_per_spec m n = true) :
    is_file_in_project m.render n = true := by
  rw [registered_per_spec, List.any_eq_true] at h
  obtain ⟨r, hr, hname⟩ := h
  have hname' : r.name = n := by simpa using hname
  rw [is_file_in_project, substr_iff]
  exact hname' ▸ frName_infix_render hr

/-- Witness for C5: the registered file of `mW` is classified registered. -/
theorem c5_witness : is_file_in_project mW.render (str "Old.swift") = true :=
  c5_membership_test mW (str "Old.swift") (by decide)

/-- Counterexample for C5 as stated: `Foo.swift` occurs only inside a comment
of `mC5` and no FileReference carries that name, yet the membership test
classifies it as already registered. -/
theorem c5_counterexample :
    is_file_in_project mC5.render (str "Foo.swift") = true
      ∧ registered_per_spec mC5 (str "Foo.swift") = false :=
  ⟨by decide, by decide⟩

/-- C3 (amended): only the two early lookups are fatal and atomic — when the
main-group declaration or the sources build phase cannot be located, the run
aborts with no write and no mutation.  The four insertion anchors are not
fatal: whenever the early checks pass and the plan is nonempty the file is
written, even if insertion anchors (e.g. the file-reference section) are
missing, in which case the corresponding insertions are silently dropped
while the rest are written (`c3_counterexample`). -/
theorem c3_anchor_behavior (ids : Nat → Text) (m : Pbx) (files : List (Text × Text)) :
    ((m.mainGroupId = none ∨ m.src = none)
        → (add_files_to_project ids m files).model = m
          ∧ (add_files_to_project ids m files).written = false)
      ∧ (m.mainGroupId ≠ none → m.src ≠ none → files_to_add m.render files ≠ []
        → (add_files_to_project ids m files).written = true) := by
  constructor
  · intro h
    rcases h with h | h
    · rw [run_mainGroup_none h]
      exact ⟨rfl, rfl⟩
    · cases hmg : m.mainGroupId with
      | none =>
        rw [run_mainGroup_none hmg]
        exact ⟨rfl, rfl⟩
      | some g =>
        rw [run_src_none hmg h]
        exact ⟨rfl, rfl⟩
  · intro h1 h2 h3
    cases hmg : m.mainGroupId with
    | none => exact absurd hmg h1
    | some g =>
      cases hs : m.src with
      | none => exact absurd hs h2
      | some s0 =>
        rw [run_written hmg hs h3]

/-- Witness for C3: the fatal branch at a descriptor without a main group,
and the non-fatal branch at `mC3` (missing file-reference anchor, plan
nonempty, write still performed). -/
theorem c3_witness :
    ((add_files_to_project idsA mC5 filesNew).model = mC5
        ∧ (add_files_to_project idsA mC5 filesNew).written = false)
      ∧ (add_files_to_project idsA mC3 filesNew).written = true :=
  ⟨(c3_anchor_behavior idsA mC5 filesNew).1 (Or.inl (by decide)),
   (c3_anchor_behavior idsA mC3 filesNew).2 (by decide) (by decide) (by decide)⟩

/-- Counterexample for C3 as stated: on `mC3` the file-reference section
anchor is missing; the run does not abort — it writes a descriptor in which
the file's build-file record was inserted while its file-reference record was
silently dropped. -/
theorem c3_counterexample :
    (add_files_to_project idsA mC3 filesNew).written = true
      ∧ (add_files_to_project idsA mC3 filesNew).model.frRecords = []
      ∧ (add_files_to_project idsA mC3 filesNew).model.bfRecords ≠ [] :=
  ⟨by decide, by decide, by decide⟩

/-- C6: ordering preservation.  In `add_files_to_project`, existing main-group
children and sources-build-phase entries retain their positions and order and
the new entries are appended after all of them (the two equations).  In
`add_file_preview.py`, insertion happens immediately after each anchor entry
and the existing entries remain in order (a sublist).  In
`add_chat_to_xcode.py`, the anchor is the opening of the Features children
list, so the new entry lands exactly at that anchor-specified position, in
front of the existing children, which remain in order. -/
theorem c6_ordering_preserved (ids : Nat → Text) (m : Pbx)
    (files : List (Text × Text)) (p : Entry → Bool) (x c : Entry)
    (l : List Entry) :
    (m.grp ≠ none →
        (add_files_to_project ids m files).model.grpChildren
          = m.grpChildren
            ++ (add_files_to_project ids m files).added.map
                (fun a => (⟨a.fileRefId, a.name⟩ : Entry)))
      ∧ (m.src ≠ none →
        (add_files_to_project ids m files).model.srcEntries
          = m.srcEntries
            ++ (add_files_to_project ids m files).added.map
                (fun a => (⟨a.buildFileId, a.name⟩ : Entry)))
      ∧ List.Sublist l (insertAfterEach p x l)
      ∧ chatGroupIntoFeatures c l = c :: l
      ∧ List.Sublist l (chatGroupIntoFeatures c l) := by
  refine ⟨?_, ?_, sublist_insertAfterEach p x l, rfl,
    List.sublist_cons_self c l⟩
  · intro hg
    cases hmg : m.mainGroupId with
    | none =>
      rw [run_mainGroup_none hmg]
      simp
    | some g =>
      cases hs : m.src with
      | none =>
        rw [run_src_none hmg hs]
        simp
      | some s0 =>
        by_cases hta : files_to_add m.render files = []
        · rw [run_empty hmg hs hta]
          simp
        · rw [run_written hmg hs hta]
          show (applyAdds m _).grpChildren = _
          rw [applyAdds_grpChildren]
          cases hgr : m.grp with
          | none => exact absurd hgr hg
          | some g0 => simp
  · intro hsrc
    cases hmg : m.mainGroupId with
    | none =>
      rw [run_mainGroup_none hmg]
      simp
    | some g =>
      cases hs : m.src with
      | none => exact absurd hs hsrc
      | some s0 =>
        by_cases hta : files_to_add m.render files = []
        · rw [run_empty hmg hs hta]
          simp
        · rw [run_written hmg hs hta]
          show (applyAdds m _).srcEntries = _
          rw [applyAdds_srcEntries]
          simp [hs]

/-- Witness for C6 at a concrete run: the existing child of `mW`'s main group
stays first and the added entry is appended. -/
theorem c6_witness :
    (add_files_to_project idsA mW filesW).model.grpChildren
        = mW.grpChildren
          ++ (add_files_to_project idsA mW filesW).added.map
              (fun a => (⟨a.fileRefId, a.name⟩ : Entry))
      ∧ (add_files_to_project idsA mW filesW).model.srcEntries
        = mW.srcEntries
          ++ (add_files_to_project idsA mW filesW).added.map
              (fun a => (⟨a.buildFileId, a.name⟩ : Entry)) :=
  ⟨(c6_ordering_preserved idsA mW filesW (fun _ => true) ⟨str "X", str "X"⟩
      ⟨str "Y", str "Y"⟩ []).1 (by decide),
   (c6_ordering_preserved idsA mW filesW (fun _ => true) ⟨str "X", str "X"⟩
      ⟨str "Y", str "Y"⟩ []).2.1 (by decide)⟩

/-- C2 (amended): when the file-reference and build-file section anchors are
both present, the run preserves referential closure: if every `PBXBuildFile`
of the input names an existing `PBXFileReference`, every main-group child an
existing `PBXFileReference`, and every sources-phase entry an existing
`PBXBuildFile`, the same holds for the descriptor the run produces — in
particular every inserted `PBXBuildFile` names an inserted
`PBXFileReference`.  When an insertion anchor is missing the references to
the dropped records are still inserted, so the output can contain dangling
references (`c2_counterexample`). -/
theorem c2_referential_closure (ids : Nat → Text) (m : Pbx)
    (files : List (Text × Text)) (hfr : m.fr ≠ none) (hbf : m.bf ≠ none)
    (hcl : closedB m = true) :
    closedB (add_files_to_project ids m files).model = true := by
  cases hmg : m.mainGroupId with
  | none =>
    rw [run_mainGroup_none hmg]
    exact hcl
  | some g =>
    cases hs : m.src with
    | none =>
      rw [run_src_none hmg hs]
      exact hcl
    | some s0 =>
      by_cases hta : files_to_add m.render files = []
      · rw [run_empty hmg hs hta]
        exact hcl
      · rw [run_written hmg hs hta]
        show closedB (applyAdds m (allocate ids 0 (files_to_add m.render files))) = true
        cases hf : m.fr with
        | none => exact absurd hf hfr
        | some sf =>
          cases hb : m.bf with
          | none => exact absurd hb hbf
          | some sb =>
            set added := allocate ids 0 (files_to_add m.render files) with hadded
            have hfrR : (applyAdds m added).frRecords
                = m.frRecords ++ added.map (fun a => ⟨a.fileRefId, a.name⟩) := by
              rw [applyAdds_frRecords]
              simp [hf]
            have hbfR : (applyAdds m added).bfRecords
                = m.bfRecords
                  ++ added.map (fun a => ⟨a.buildFileId, a.fileRefId, a.name⟩) := by
              rw [applyAdds_bfRecords]
              simp [hb]
            have hgrpR : (applyAdds m added).grpChildren
                = m.grpChildren
                  ++ (match m.grp with
                      | none => []
                      | some _ => added.map (fun a => (⟨a.fileRefId, a.name⟩ : Entry))) :=
              applyAdds_grpChildren m added
            have hsrcR : (applyAdds m added).srcEntries
                = m.srcEntries ++ added.map (fun a => ⟨a.buildFileId, a.name⟩) := by
              rw [applyAdds_srcEntries]
              simp [hs]
            have hfrIds : (applyAdds m added).frIds
                = m.frIds ++ added.map Added.fileRefId := by
              rw [Pbx.frIds, hfrR, List.map_append, Pbx.frIds, List.map_map]
              rfl
            have hbfIds : (applyAdds m added).bfIds
                = m.bfIds ++ added.map Added.buildFileId := by
              rw [Pbx.bfIds, hbfR, List.map_append, Pbx.bfIds, List.map_map]
              rfl
            rw [closedB, Bool.and_eq_true, Bool.and_eq_true] at hcl ⊢
            obtain ⟨⟨hcl1, hcl2⟩, hcl3⟩ := hcl
            rw [List.all_eq_true] at hcl1 hcl2 hcl3
            refine ⟨⟨?_, ?_⟩, ?_⟩ <;> rw [List.all_eq_true]
            · intro b hbmem
              rw [hbfR] at hbmem
              rw [hfrIds]
              rcases List.mem_append.mp hbmem with hbm | hbm
              · have := hcl1 b hbm
                have hmem : b.fileRef ∈ m.frIds := by simpa using this
                have hmem2 : b.fileRef ∈ m.frIds ++ added.map Added.fileRefId :=
                  List.mem_append.mpr (Or.inl hmem)
                simpa using hmem2
              · obtain ⟨a, ha, rfl⟩ := List.mem_map.mp hbm
                have hmem : a.fileRefId ∈ added.map Added.fileRefId :=
                  List.mem_map.mpr ⟨a, ha, rfl⟩
                have hmem2 : a.fileRefId ∈ m.frIds ++ added.map Added.fileRefId :=
                  List.mem_append.mpr (Or.inr hmem)
                simpa using hmem2
            · intro e hemem
              rw [hgrpR] at hemem
              rw [hfrIds]
              rcases List.mem_append.mp hemem with hem | hem
              · have := hcl2 e hem
                have hmem : e.id ∈ m.frIds := by simpa using this
                have hmem2 : e.id ∈ m.frIds ++ added.map Added.fileRefId :=
                  List.mem_append.mpr (Or.inl hmem)
                simpa using hmem2
              · cases hgr : m.grp with
                | none =>
                  rw [hgr] at hem
                  simp at hem
                | some g0 =>
                  rw [hgr] at hem
                  obtain ⟨a, ha, rfl⟩ := List.mem_map.mp hem
                  have hmem : a.fileRefId ∈ added.map Added.fileRefId :=
                    List.mem_map.mpr ⟨a, ha, rfl⟩
                  simpa using List.mem_append.mpr (Or.inr hmem)
            · intro e hemem
              rw [hsrcR] at hemem
              rw [hbfIds]
              rcases List.mem_append.mp hemem with hem | hem
              · have := hcl3 e hem
                have hmem : e.id ∈ m.bfIds := by simpa using this
                have hmem2 : e.id ∈ m.bfIds ++ added.map Added.buildFileId :=
                  List.mem_append.mpr (Or.inl hmem)
                simpa using hmem2
              · obtain ⟨a, ha, rfl⟩ := List.mem_map.mp hem
                have hmem : a.buildFileId ∈ added.map Added.buildFileId :=
                  List.mem_map.mpr ⟨a, ha, rfl⟩
                have hmem2 : a.buildFileId ∈ m.bfIds ++ added.map Added.buildFileId :=
                  List.mem_append.mpr (Or.inr hmem)
                simpa using hmem2

/-- Witness for C2: a run on the closed descriptor `mW` with one missing file
produces a closed descriptor. -/
theorem c2_witness :
    closedB (add_files_to_project idsA mW filesW).model = true :=
  c2_referential_closure idsA mW filesW (by decide) (by decide) (by decide)

/-- Counterexample for C2 as stated: `mC2` is referentially closed but its
build-file section anchor is missing; the run still inserts the
sources-phase entry naming the never-inserted `PBXBuildFile`, so the
descriptor produced by apply has a dangling reference. -/
theorem c2_counterexample :
    closedB mC2 = true
      ∧ closedB (add_files_to_project idsA mC2 filesNew).model = false :=
  ⟨by decide, by decide⟩

/-- In a list without duplicates at most one element is `== n`. -/
theorem countP_beq_le_one_of_nodup {l : List Text} {n : Text} (h : l.Nodup) :
    l.countP (fun x => x == n) ≤ 1 := by
  induction l with
  | nil => simp
  | cons a t ih =>
    rw [List.countP_cons]
    rcases List.nodup_cons.mp h with ⟨hna, hnt⟩
    by_cases hbeq : (a == n) = true
    · have ha : a = n := by simpa using hbeq
      have h0 : t.countP (fun x => x == n) = 0 := by
        rw [List.countP_eq_zero]
        intro x hx hxbeq
        have hxn : x = n := by simpa using hxbeq
        exact hna (by rwa [hxn, ← ha] at hx)
      simp [h0, hbeq]
    · simp [hbeq]
      exact ih hnt

/-- C4 (amended): no duplication holds only for candidate lists whose display
names are pairwise distinct.  The membership test of the loop
(`fix_xcode_project.py` line 56) checks the pre-run text for every candidate,
so two candidates with the same base name in different folders are both
added (`c4_counterexample`).  For candidate lists without repeated display
names, a display name carried by an existing FileReference is never added
again, and at most one new FileReference per display name is created: if the
input descriptor has at most one FileReference with a given display name, so
does the output. -/
theorem c4_no_duplicate_names (ids : Nat → Text) (m : Pbx)
    (files : List (Text × Text)) (n : Text)
    (hnod : (files.map Prod.fst).Nodup)
    (hm : (m.frRecords.filter (fun r => r.name == n)).length ≤ 1) :
    ((add_files_to_project ids m files).model.frRecords.filter
        (fun r => r.name == n)).length ≤ 1 := by
  cases hmg : m.mainGroupId with
  | none =>
    rw [run_mainGroup_none hmg]
    exact hm
  | some g =>
    cases hs : m.src with
    | none =>
      rw [run_src_none hmg hs]
      exact hm
    | some s0 =>
      by_cases hta : files_to_add m.render files = []
      · rw [run_empty hmg hs hta]
        exact hm
      · rw [run_written hmg hs hta]
        show ((applyAdds m (allocate ids 0 (files_to_add m.render files))).frRecords.filter
            (fun r => r.name == n)).length ≤ 1
        rw [applyAdds_frRecords]
        cases hf : m.fr with
        | none =>
          simp only [hf]
          simpa using hm
        | some sf =>
          simp only [hf]
          rw [List.filter_append, List.length_append]
          have hnodToAdd : (files_to_add m.render files).Nodup := by
            rw [files_to_add]
            exact hnod.sublist (List.Sublist.map Prod.fst (List.filter_sublist files))
          have hnames : (allocate ids 0 (files_to_add m.render files)).map Added.name
              = files_to_add m.render files := allocate_names ids 0 _
          have hnewcount : (((allocate ids 0 (files_to_add m.render files)).map
                (fun a => (⟨a.fileRefId, a.name⟩ : FileRef))).filter
                  (fun r => r.name == n)).length
              = (files_to_add m.render files).countP (fun x => x == n) := by
            rw [← List.countP_eq_length_filter, List.countP_map]
            rw [show ((fun r : FileRef => r.name == n)
                ∘ fun a : Added => (⟨a.fileRefId, a.name⟩ : FileRef))
                = ((fun x : Text => x == n) ∘ Added.name) from rfl]
            rw [← List.countP_map, hnames]
          by_cases hold : ∃ r ∈ sf.records, r.name = n
          · obtain ⟨r, hrmem, hrname⟩ := hold
            have hmemfr : r ∈ m.frRecords := by
              simp only [Pbx.frRecords, hf]
              exact hrmem
            have hinfix : n <:+: m.render := hrname ▸ frName_infix_render hmemfr
            have hproj : is_file_in_project m.render n = true := by
              rw [is_file_in_project, substr_iff]
              exact hinfix
            have hnotin : n ∉ files_to_add m.render files := by
              intro hmem
              rw [files_to_add] at hmem
              obtain ⟨fp, hfp, hfpeq⟩ := List.mem_map.mp hmem
              obtain ⟨_, hfp2⟩ := List.mem_filter.mp hfp
              rw [hfpeq, hproj] at hfp2
              simp at hfp2
            have hzero : (files_to_add m.render files).countP (fun x => x == n) = 0 := by
              rw [List.countP_eq_zero]
              intro x hx hxbeq
              exact hnotin (by rwa [show x = n from by simpa using hxbeq] at hx)
            rw [hnewcount, hzero]
            have hm' : (sf.records.filter (fun r => r.name == n)).length ≤ 1 := by
              simpa [Pbx.frRecords, hf] using hm
            simpa [Pbx.frRecords, hf] using hm'
          · have hold0 : (m.frRecords.filter (fun r => r.name == n)).length = 0 := by
              rw [List.length_eq_zero, List.filter_eq_nil_iff]
              intro r hr hbeq
              refine hold ⟨r, ?_, by simpa using hbeq⟩
              simpa [Pbx.frRecords, hf] using hr
            have hnew1 : (files_to_add m.render files).countP (fun x => x == n) ≤ 1 :=
              countP_beq_le_one_of_nodup hnodToAdd
            rw [hnewcount, hold0]
            omega

/-- Witness for C4: adding `New.swift` to `mW` keeps at most one
FileReference per display name. -/
theorem c4_witness :
    ((add_files_to_project idsA mW filesW).model.frRecords.filter
        (fun r => r.name == str "New.swift")).length ≤ 1 :=
  c4_no_duplicate_names idsA mW filesW (str "New.swift") (by decide) (by decide)

/-- Counterexample for C4 as stated: the candidate list `filesC4` holds two
files named `F.swift` in different folders; the full run on the empty
descriptor `mC4` registers two FileReferences with that display name. -/
theorem c4_counterexample :
    ((add_files_to_project idsA mC4 filesC4).model.frRecords.filter
        (fun r => r.name == str "F.swift")).length = 2 := by
  decide

/-- C1 (amended): idempotence of the pipeline holds for candidate lists whose
display names contain none of the seam characters `/`, `)`, newline, tab, on
descriptors whose section leads and tails are the usual whitespace: the
second run (against the descriptor the first run produced) computes an empty
plan, writes nothing, and leaves the descriptor unchanged.  Without the
restriction on names the claim fails: a name containing `)` whose only
occurrence straddles the children list's closing parenthesis is classified
registered by the first run, but the first run's own insertion splits that
occurrence, so the second run's plan is nonempty (`c1_counterexample`). -/
theorem c1_idempotent_plan (ids ids2 : Nat → Text) (m : Pbx)
    (files : List (Text × Text))
    (hnames : ∀ fp ∈ files, goodNameB fp.1 = true)
    (hshape : m.shapeOk = true) :
    (add_files_to_project ids2 (add_files_to_project ids m files).model files).added = []
      ∧ (add_files_to_project ids2 (add_files_to_project ids m files).model files).written
          = false
      ∧ (add_files_to_project ids2 (add_files_to_project ids m files).model files).model
          = (add_files_to_project ids m files).model := by
  cases hmg : m.mainGroupId with
  | none =>
    rw [run_mainGroup_none hmg]
    show (add_files_to_project ids2 m files).added = []
      ∧ (add_files_to_project ids2 m files).written = false
      ∧ (add_files_to_project ids2 m files).model = m
    rw [run_mainGroup_none hmg]
    exact ⟨rfl, rfl, rfl⟩
  | some g =>
    cases hs : m.src with
    | none =>
      rw [run_src_none hmg hs]
      show (add_files_to_project ids2 m files).added = []
        ∧ (add_files_to_project ids2 m files).written = false
        ∧ (add_files_to_project ids2 m files).model = m
      rw [run_src_none hmg hs]
      exact ⟨rfl, rfl, rfl⟩
    | some s0 =>
      by_cases hta : files_to_add m.render files = []
      · rw [run_empty hmg hs hta]
        show (add_files_to_project ids2 m files).added = []
          ∧ (add_files_to_project ids2 m files).written = false
          ∧ (add_files_to_project ids2 m files).model = m
        rw [run_empty hmg hs hta]
        exact ⟨rfl, rfl, rfl⟩
      · rw [run_written hmg hs hta]
        show (add_files_to_project ids2
              (applyAdds m (allocate ids 0 (files_to_add m.render files))) files).added = []
          ∧ (add_files_to_project ids2
              (applyAdds m (allocate ids 0 (files_to_add m.render files))) files).written
              = false
          ∧ (add_files_to_project ids2
              (applyAdds m (allocate ids 0 (files_to_add m.render files))) files).model
              = applyAdds m (allocate ids 0 (files_to_add m.render files))
        set added := allocate ids 0 (files_to_add m.render files) with haddeddef
        set m2 := applyAdds m added with hm2def
        have hmg2 : m2.mainGroupId = some g := by
          rw [hm2def, applyAdds_mainGroupId]
          exact hmg
        have hsrc2 : m2.src
            = some ⟨s0.pre, s0.entries ++ added.map (fun a => ⟨a.buildFileId, a.name⟩),
                s0.tail⟩ := by
          rw [hm2def]
          exact applyAdds_src_eq m added s0 hs
        have hta2 : files_to_add m2.render files = [] := by
          rw [files_to_add, List.map_eq_nil_iff, List.filter_eq_nil_iff]
          intro fp hfp
          intro hcontra
          have hfalse : is_file_in_project m2.render fp.1 = false := by
            simpa using hcontra
          have htrue : is_file_in_project m2.render fp.1 = true := by
            by_cases hin : is_file_in_project m.render fp.1 = true
            · have hinf : fp.1 <:+: m.render := by
                rw [is_file_in_project, substr_iff] at hin
                exact hin
              rw [is_file_in_project, substr_iff, hm2def]
              exact presIn_apply (presIn_applyAdds m added (hnames fp hfp) hshape) hinf
            · have hfalse0 : is_file_in_project m.render fp.1 = false := by
                revert hin
                cases is_file_in_project m.render fp.1 <;> simp
              have hmemAdd : fp.1 ∈ files_to_add m.render files := by
                rw [files_to_add]
                exact List.mem_map.mpr
                  ⟨fp, List.mem_filter.mpr ⟨hfp, by rw [hfalse0]; rfl⟩, rfl⟩
              have hmem2 : fp.1 ∈ added.map Added.name := by
                rw [haddeddef, allocate_names]
                exact hmemAdd
              obtain ⟨a, ha, haname⟩ := List.mem_map.mp hmem2
              have hentry : (⟨a.buildFileId, a.name⟩ : Entry) ∈ m2.srcEntries := by
                simp only [Pbx.srcEntries, hsrc2]
                exact List.mem_append.mpr (Or.inr (List.mem_map.mpr ⟨a, ha, rfl⟩))
              have hinf2 : a.name <:+: m2.render := srcName_infix_render hentry
              rw [is_file_in_project, substr_iff]
              exact haname ▸ hinf2
          rw [htrue] at hfalse
          cases hfalse
        rw [run_empty hmg2 hsrc2 hta2]
        exact ⟨rfl, rfl, rfl⟩

/-- Witness for C1: two successive runs over `mW` with the candidates
`filesW` — the second one plans nothing, writes nothing, and changes
nothing. -/
theorem c1_witness :
    (add_files_to_project idsA (add_files_to_project idsA mW filesW).model filesW).added = []
      ∧ (add_files_to_project idsA (add_files_to_project idsA mW filesW).model
          filesW).written = false
      ∧ (add_files_to_project idsA (add_files_to_project idsA mW filesW).model
          filesW).model = (add_files_to_project idsA mW filesW).model :=
  c1_idempotent_plan idsA idsA mW filesW (by decide) (by decide)

/-- Counterexample for C1 as stated: on `mC1` with candidates `filesC1` the
first run registers `a.swift`; appending its child entry splits the sole
occurrence of the name `x */,);y.swift`, so the second run's plan is nonempty
and the second run writes again. -/
theorem c1_counterexample :
    (add_files_to_project idsA (add_files_to_project idsA mC1 filesC1).model
        filesC1).added ≠ []
      ∧ (add_files_to_project idsA (add_files_to_project idsA mC1 filesC1).model
          filesC1).written = true :=
  ⟨by decide, by decide⟩
